import Mathlib

/-!
# run68x, `src/mem.c`: address checks, memory access and operand fetch

A shallow embedding of the functions of `mem.c`.

Conventions of the embedding

* A C value of type `Long`/`ULong` (32 bits) is a natural number, its bit
  pattern; `sLong` gives the signed reading that C uses for a `Long`, and
  every place where the C code compares or shifts a signed value goes through
  it.  Arithmetic that can leave 32 bits is reduced `% 2 ^ 32`.
* `prog_ptr` is a flat byte memory indexed by a signed offset; the emulated
  buffer is the offsets `0 .. mem_aloc - 1`, but a C pointer can be moved
  anywhere, so the memory is a total function of the offset.
* `err68` never returns: a call of it ends the function with `Outcome.fatal`
  carrying the message that was formatted for it.
-/

namespace Run68

/-! ## Machine values -/

/-- Signed reading of a 32-bit pattern (the value of a C `Long`). -/
def sLong (x : Nat) : Int :=
  if x < 2147483648 then (x : Int) else (x : Int) - 4294967296

/-- Bit pattern of a C `int` value. -/
def toLong (v : Int) : Nat := (v % 4294967296).toNat

/-- C `d << k` on a `Long`, kept to 32 bits. -/
def shl32 (d k : Nat) : Nat := (d <<< k) % 4294967296

/-- C `d >> k` on a (signed) `Long`: arithmetic shift of the signed value. -/
def sar32 (d k : Nat) : Nat := toLong (sLong d >>> k)

/-- C addition of two `Long`s, kept to 32 bits. -/
def add32 (a b : Nat) : Nat := (a + b) % 4294967296

/-- Modelled from the spec: `extl` of run68.h (not under src) sign-extends a
16-bit `Word` to a 32-bit `Long`.  The argument is the low 16 bits pattern. -/
def extl (w : Nat) : Nat :=
  if w % 65536 < 32768 then w % 65536 else w % 65536 + 4294901760

/-- Modelled from the spec: `extbl` of run68.h (not under src) sign-extends a
signed 8-bit `Byte` to a 32-bit `Long`.  The argument is the byte pattern. -/
def extbl (b : Nat) : Nat :=
  if b % 256 < 128 then b % 256 else b % 256 + 4294967040

/-- Modelled from the spec: width code "byte" of run68.h (not under src). -/
def S_BYTE : Nat := 0

/-- Modelled from the spec: width code "word" of run68.h (not under src). -/
def S_WORD : Nat := 1

/-- Modelled from the spec: width code "long" of run68.h (not under src). -/
def S_LONG : Nat := 2

/-! ## Global state of the emulator that `mem.c` uses -/

/-- The globals read or written by `mem.c`. -/
structure State where
  /-- Byte memory `prog_ptr[off]`. -/
  prog : Int → Nat
  /-- Program counter, an unsigned 32-bit offset. -/
  pc : Nat
  /-- Address registers `ra[0..7]`. -/
  ra : Nat → Nat
  /-- Data registers `rd[0..7]`. -/
  rd : Nat → Nat
  /-- Status register. -/
  sr : Nat
  /-- Size of the allocated memory (`ULong`). -/
  mem_aloc : Nat
  /-- The flag `ini_info.io_through`. -/
  io_through : Bool

/-- Result of a call: a normal return, or `err68` was called with a message
and control never came back. -/
inductive Outcome (α : Type) where
  | ret (a : α)
  | fatal (message : String)
  deriving DecidableEq

/-- The returned value, if the call returned. -/
def Outcome.value {α : Type} : Outcome α → Option α
  | .ret a => some a
  | .fatal _ => none

/-- Whether the call ended in `err68`. -/
def Outcome.isFatal {α : Type} : Outcome α → Bool
  | .ret _ => false
  | .fatal _ => true

/-- Modelled from the spec: the macro `SR_S_REF()` of run68.h (not under src)
extracts the supervisor bit of `sr`, bit 13 of the 68000 status register. -/
def SR_S_REF (s : State) : Nat := s.sr &&& 0x2000

/-- Load of one `UByte` at `prog_ptr + off`. -/
def peek (s : State) (off : Int) : Nat := s.prog off % 256

/-- Store of one `UByte` at `prog_ptr + off` (the value is converted to
`UByte`, that is, reduced modulo 256). -/
def poke (s : State) (off : Int) (v : Nat) : State :=
  { s with prog := fun o => if o = off then v % 256 else s.prog o }

/-! ## `printf` conversion `%06X` -/

/-- One uppercase hexadecimal digit. -/
def hexDigit (d : Nat) : Char :=
  if d < 10 then Char.ofNat (48 + d) else Char.ofNat (55 + d)

/-- Hexadecimal digits of `n`, most significant first, no leading zero. -/
def hexDigits (n : Nat) : List Char :=
  if n < 16 then [hexDigit n] else hexDigits (n / 16) ++ [hexDigit (n % 16)]
termination_by n
decreasing_by omega

/-- The conversion `%06X`: uppercase hexadecimal, zero-padded on the left to
at least six characters. -/
def fmt06X (n : Nat) : String :=
  String.mk (List.replicate (6 - (hexDigits n).length) '0' ++ hexDigits n)

/-! ## `mem_red_chk`, `mem_wrt_chk` -/

/-- `mem_red_chk`: check of an address that is about to be read. -/
def mem_red_chk (s : State) (adr : Nat) : Outcome Bool :=
  let adr := adr &&& 0x00FFFFFF
  if sLong adr ≥ 0xC00000 then
    if s.io_through then .ret false
    else .fatal ("I/OポートorROM($" ++ fmt06X adr ++ ")から読み込もうとしました。")
  else if SR_S_REF s = 0 ∨ adr ≥ s.mem_aloc then
    .fatal ("不正アドレス($" ++ fmt06X adr ++ ")からの読み込みです。")
  else .ret true

/-- `mem_wrt_chk`: check of an address that is about to be written. -/
def mem_wrt_chk (s : State) (adr : Nat) : Outcome Bool :=
  let adr := adr &&& 0x00FFFFFF
  if sLong adr ≥ 0xC00000 then
    if s.io_through then .ret false
    else .fatal ("I/OポートorROM($" ++ fmt06X adr ++ ")に書き込もうとしました。")
  else if SR_S_REF s = 0 ∨ adr ≥ s.mem_aloc then
    .fatal ("不正アドレスへの書き込みです($" ++ fmt06X adr ++ ")")
  else .ret true

/-! ## `mem_get`, `mem_set` -/

/-- The `switch (size)` of `mem_get`, reading at `prog_ptr + adr`. -/
def mem_get_body (s : State) (adr size : Nat) : Nat :=
  let mem : Int := sLong adr
  if size = S_BYTE then peek s mem
  else if size = S_WORD then
    let d := peek s mem
    shl32 d 8 ||| peek s (mem + 1)
  else
    let d := peek s mem
    let d := shl32 d 8 ||| peek s (mem + 1)
    let d := shl32 d 8 ||| peek s (mem + 2)
    shl32 d 8 ||| peek s (mem + 3)

/-- `mem_get`; `ENV_TOP` is a constant of run68.h and is taken as a parameter
(a non-negative `int` constant, so `adr < ENV_TOP` is a signed comparison). -/
def mem_get (ENV_TOP : Nat) (s : State) (adr size : Nat) : Outcome Nat :=
  if sLong adr < (ENV_TOP : Int) ∨ adr ≥ s.mem_aloc then
    match mem_red_chk s adr with
    | .fatal m => .fatal m
    | .ret false => .ret 0
    | .ret true => .ret (mem_get_body s adr size)
  else .ret (mem_get_body s adr size)

/-- The `switch (size)` of `mem_set`, writing at `prog_ptr + adr`. -/
def mem_set_body (s : State) (adr d size : Nat) : State :=
  let mem : Int := sLong adr
  if size = S_BYTE then poke s mem (d &&& 0xFF)
  else if size = S_WORD then
    let s := poke s mem (sar32 d 8 &&& 0xFF)
    poke s (mem + 1) (d &&& 0xFF)
  else
    let s := poke s mem (sar32 d 24 &&& 0xFF)
    let s := poke s (mem + 1) (sar32 d 16 &&& 0xFF)
    let s := poke s (mem + 2) (sar32 d 8 &&& 0xFF)
    poke s (mem + 3) (d &&& 0xFF)

/-- `mem_set`; returns the state after the call. -/
def mem_set (ENV_TOP : Nat) (s : State) (adr d size : Nat) : Outcome State :=
  if sLong adr < (ENV_TOP : Int) ∨ adr ≥ s.mem_aloc then
    match mem_wrt_chk s adr with
    | .fatal m => .fatal m
    | .ret false => .ret s
    | .ret true => .ret (mem_set_body s adr d size)
  else .ret (mem_set_body s adr d size)

/-! ## `run68_abort` -/

/-- The conversion `%08X`: uppercase hexadecimal, zero-padded on the left to
at least eight characters. -/
def fmt08X (n : Nat) : String :=
  String.mk (List.replicate (8 - (hexDigits n).length) '0' ++ hexDigits n)

/-- The conversions `%08lx` and `%04x` of the `TRACE` dump: lowercase
hexadecimal of the value, zero-padded on the left to at least `w` characters
(a `Long` is printed as its 32-bit pattern). -/
def fmtLowerHex (w n : Nat) : String :=
  String.mk ((List.replicate (w - (hexDigits n).length) '0' ++ hexDigits n).map Char.toLower)

/-- What a call does outside the emulator state, in the order it happens. -/
inductive Effect where
  /-- Text written with `fprintf(stderr, ...)`. -/
  | stderr (text : String)
  /-- Text written with `printf(...)`. -/
  | stdout (text : String)
  /-- One call of `close_all_files()`. -/
  | close_all_files
  deriving DecidableEq

/-- How a call hands control on. -/
inductive Control where
  /-- Normal return to the caller. -/
  | returns
  /-- The call `longjmp(jmp_when_abort, val)`: control goes to the `setjmp` of
  `jmp_when_abort`, which yields `val`. -/
  | longjmp (val : Nat)
  deriving DecidableEq

/-- The register dump between `#ifdef TRACE` and `#endif`. -/
def traceDump (s : State) : List Effect :=
  [Effect.stdout ("d0-7=" ++ fmtLowerHex 8 (s.rd 0))]
    ++ (List.range' 1 7).map (fun i => Effect.stdout ("," ++ fmtLowerHex 8 (s.rd i)))
    ++ [Effect.stdout "\n"]
    ++ [Effect.stdout ("a0-7=" ++ fmtLowerHex 8 (s.ra 0))]
    ++ (List.range' 1 7).map (fun i => Effect.stdout ("," ++ fmtLowerHex 8 (s.ra i)))
    ++ [Effect.stdout "\n"]
    ++ [Effect.stdout ("  pc=" ++ fmtLowerHex 8 s.pc ++ "    sr=" ++ fmtLowerHex 4 s.sr ++ "\n")]

/-- `run68_abort`; `TRACE` tells whether the build defines the macro `TRACE`.
Returns what the call did, in order, and how it ended. -/
def run68_abort (TRACE : Bool) (s : State) (adr : Nat) : List Effect × Control :=
  ([Effect.stderr ("アドレス：" ++ fmt08X adr ++ "\n"), Effect.close_all_files]
      ++ (if TRACE then traceDump s else []),
    Control.longjmp 2)

/-! ## `idx_get`, `imi_get` -/

/-- `idx_get`: index register plus 8-bit displacement, from the brief
extension word at `pc`.  Returns the value and the state after the call. -/
def idx_get (s : State) : Nat × State :=
  let mem : Int := (s.pc : Int)
  let ext := peek s mem
  let disp8 := peek s (mem + 1)
  let s1 : State := { s with pc := (s.pc + 2) % 4294967296 }
  let idx_reg := (ext >>> 4) &&& 0x07
  let idx := if ext &&& 0x80 ≠ 0 then s.ra idx_reg else s.rd idx_reg
  let idx := if ext &&& 0x08 = 0 then extl idx else idx
  (add32 idx (extbl disp8), s1)

/-- `imi_get`: immediate data of the given size at `pc`.  Returns the value
and the state after the call. -/
def imi_get (s : State) (size : Nat) : Nat × State :=
  let mem : Int := (s.pc : Int)
  if size = S_BYTE then
    (peek s (mem + 1), { s with pc := (s.pc + 2) % 4294967296 })
  else if size = S_WORD then
    let d := peek s mem
    (shl32 d 8 ||| peek s (mem + 1), { s with pc := (s.pc + 2) % 4294967296 })
  else
    let d := peek s mem
    let d := shl32 d 8 ||| peek s (mem + 1)
    let d := shl32 d 8 ||| peek s (mem + 2)
    (shl32 d 8 ||| peek s (mem + 3), { s with pc := (s.pc + 4) % 4294967296 })

/-! ## Vocabulary of the statements -/

/-- Number of bytes of an access with the given size code. -/
def accessWidth (size : Nat) : Nat :=
  if size = S_BYTE then 1 else if size = S_WORD then 2 else 4

/-- Big-endian value of the `n` bytes at offsets `off, off + 1, ..., off + n - 1`:
the byte at the lowest offset is the most significant. -/
def beValue (s : State) (off : Int) : Nat → Nat
  | 0 => 0
  | n + 1 => beValue s off n * 256 + peek s (off + n)

/-- The state apart from the byte memory is the same. -/
def sameRegs (s t : State) : Prop :=
  t.pc = s.pc ∧ t.ra = s.ra ∧ t.rd = s.rd ∧ t.sr = s.sr ∧
    t.mem_aloc = s.mem_aloc ∧ t.io_through = s.io_through

/-- Exactly `k` hexadecimal digits of `n`, most significant first. -/
def hexFixed : Nat → Nat → List Char
  | 0, _ => []
  | k + 1, n => hexFixed k (n / 16) ++ [hexDigit (n % 16)]

/-- Whether a character is one of `0-9`, `A-F`. -/
def isUpperHex (c : Char) : Bool :=
  (48 ≤ c.toNat && c.toNat ≤ 57) || (65 ≤ c.toNat && c.toNat ≤ 70)

/-- Value of one hexadecimal digit character. -/
def hexCharVal (c : Char) : Nat :=
  if c.toNat ≤ 57 then c.toNat - 48 else c.toNat - 55

/-- Value of a string of hexadecimal digits, most significant first. -/
def hexValue (ds : List Char) : Nat :=
  ds.foldl (fun acc c => 16 * acc + hexCharVal c) 0

/-- A state with `io_through` set and the I/O region outside the allocation. -/
def passState : State where
  prog := fun _ => 0xEE
  pc := 0
  ra := fun _ => 0
  rd := fun _ => 0
  sr := 0
  mem_aloc := 0x100000
  io_through := true

/-- Signed value of the low 8 bits of `b` (a C `Byte`). -/
def signed8 (b : Nat) : Int :=
  if b % 256 < 128 then ((b % 256 : Nat) : Int) else ((b % 256 : Nat) : Int) - 256

/-- Signed value of the low 16 bits of `w` (a C `Word`). -/
def signed16 (w : Nat) : Int :=
  if w % 65536 < 32768 then ((w % 65536 : Nat) : Int) else ((w % 65536 : Nat) : Int) - 65536

/-- A state whose `pc` points at the bytes `08 04`, the extension word
`0x0804`, with `d0 = 0x1000`. -/
def ext0804State : State where
  prog := fun o => if o = 0x4000 then 0x08 else if o = 0x4001 then 0x04 else 0
  pc := 0x4000
  ra := fun _ => 0
  rd := fun r => if r = 0 then 0x1000 else 0
  sr := 0x2000
  mem_aloc := 0x100000
  io_through := false

/-- A state whose `pc` points at the bytes `01 02 03 04`, followed by
`12 34`. -/
def immState : State where
  prog := fun o =>
    if o = 0x3000 then 0x01 else if o = 0x3001 then 0x02
    else if o = 0x3002 then 0x03 else if o = 0x3003 then 0x04
    else if o = 0x3004 then 0x12 else if o = 0x3005 then 0x34 else 0
  pc := 0x3000
  ra := fun _ => 0
  rd := fun _ => 0
  sr := 0x2000
  mem_aloc := 0x100000
  io_through := false

/-- A state whose `pc` points at the bytes `00 FF`. -/
def byteImmState : State where
  prog := fun o => if o = 0x3000 then 0x00 else if o = 0x3001 then 0xFF else 0
  pc := 0x3000
  ra := fun _ => 0
  rd := fun _ => 0
  sr := 0x2000
  mem_aloc := 0x100000
  io_through := false

/-- A supervisor-mode state with 1 MiB allocated: the byte at offset `0x3000`
is `0x11`, the byte at offset `0x01003000` (beyond the allocation) is `0x99`,
and the bytes at offsets `0xFFFFF .. 0x100002` are `AA BB CC DD`. -/
def superState : State where
  prog := fun o =>
    if o = 0x3000 then 0x11 else if o = 0x01003000 then 0x99
    else if o = 0xFFFFF then 0xAA else if o = 0x100000 then 0xBB
    else if o = 0x100001 then 0xCC else if o = 0x100002 then 0xDD else 0
  pc := 0
  ra := fun _ => 0
  rd := fun _ => 0
  sr := 0x2000
  mem_aloc := 0x100000
  io_through := false

/-- A concrete state used to instantiate the theorems: 1 MiB allocated, user
mode (`sr = 0`), `io_through` clear, the bytes `12 34 56 78` at `0x3000`, the
brief extension word `08 10` at `0x4000`, and `d0 = 0x1000`. -/
def demoState : State where
  prog := fun o =>
    if o = 0x3000 then 0x12 else if o = 0x3001 then 0x34
    else if o = 0x3002 then 0x56 else if o = 0x3003 then 0x78
    else if o = 0x4000 then 0x08 else if o = 0x4001 then 0x10 else 0
  pc := 0x4000
  ra := fun _ => 0
  rd := fun r => if r = 0 then 0x1000 else 0
  sr := 0
  mem_aloc := 0x100000
  io_through := false

/-! ## Arithmetic of the machine values -/

theorem mask24_eq_mod (adr : Nat) : adr &&& 0x00FFFFFF = adr % 16777216 :=
  Nat.and_pow_two_sub_one_eq_mod adr 24

theorem mask24_lt (adr : Nat) : adr &&& 0x00FFFFFF < 16777216 := by
  rw [mask24_eq_mod]; omega

theorem sLong_of_lt {x : Nat} (h : x < 2147483648) : sLong x = (x : Int) := by
  simp [sLong, h]

theorem sLong_mask24 (adr : Nat) :
    sLong (adr &&& 0x00FFFFFF) = ((adr &&& 0x00FFFFFF : Nat) : Int) :=
  sLong_of_lt (by have := mask24_lt adr; omega)

theorem and_FF (x : Nat) : x &&& 0xFF = x % 256 :=
  Nat.and_pow_two_sub_one_eq_mod x 8

theorem sar32_8_byte (d : Nat) : sar32 d 8 % 256 = d / 256 % 256 := by
  unfold sar32 toLong sLong
  rw [Int.shiftRight_eq_div_pow]
  split <;> omega

theorem sar32_16_byte (d : Nat) : sar32 d 16 % 256 = d / 65536 % 256 := by
  unfold sar32 toLong sLong
  rw [Int.shiftRight_eq_div_pow]
  split <;> omega

theorem sar32_24_byte (d : Nat) : sar32 d 24 % 256 = d / 16777216 % 256 := by
  unfold sar32 toLong sLong
  rw [Int.shiftRight_eq_div_pow]
  split <;> omega

theorem shl32_or_byte (d b : Nat) (hb : b < 256) :
    shl32 d 8 ||| b = (d % 16777216) * 256 + b := by
  have h1 : shl32 d 8 = 2 ^ 8 * (d % 16777216) := by
    unfold shl32; rw [Nat.shiftLeft_eq]; omega
  rw [h1, ← Nat.mul_add_lt_is_or (by simpa using hb)]
  omega

theorem peek_lt (s : State) (off : Int) : peek s off < 256 := by
  unfold peek; omega

theorem peek_poke (s : State) (o o' : Int) (v : Nat) :
    peek (poke s o v) o' = if o' = o then v % 256 else peek s o' := by
  unfold peek poke
  by_cases h : o' = o <;> simp [h]

theorem sLong_nonneg_eq {a : Nat} (h32 : a < 4294967296) (h : 0 ≤ sLong a) :
    sLong a = (a : Int) := by
  unfold sLong at h ⊢
  split at h
  · simp [*]
  · omega

/-! ## The conversion `%06X` -/

theorem hexDigit_spec (d : Nat) (h : d < 16) :
    isUpperHex (hexDigit d) = true ∧ hexCharVal (hexDigit d) = d := by
  interval_cases d <;> decide

theorem hexFixed_zero (k : Nat) : hexFixed k 0 = List.replicate k '0' := by
  induction k with
  | zero => rfl
  | succ k ih =>
    have h0 : hexDigit (0 % 16) = '0' := by decide
    simp only [hexFixed, Nat.zero_div, ih, h0, List.replicate_succ']

theorem hexDigits_small (n : Nat) (h : n < 16) : hexDigits n = [hexDigit n] := by
  rw [hexDigits]; simp [h]

theorem hexDigits_large (n : Nat) (h : ¬ n < 16) :
    hexDigits n = hexDigits (n / 16) ++ [hexDigit (n % 16)] := by
  rw [hexDigits]; simp [h]

theorem hexDigits_length_le (k : Nat) : ∀ n, n < 16 ^ (k + 1) → (hexDigits n).length ≤ k + 1 := by
  induction k with
  | zero =>
    intro n h
    rw [hexDigits_small n (by simpa using h)]; simp
  | succ k ih =>
    intro n h
    by_cases hn : n < 16
    · rw [hexDigits_small n hn]; simp
    · rw [hexDigits_large n hn]
      have := ih (n / 16) (by rw [pow_succ] at h; omega)
      simp; omega

theorem pad_hexDigits (k : Nat) :
    ∀ n, n < 16 ^ (k + 1) →
      List.replicate (k + 1 - (hexDigits n).length) '0' ++ hexDigits n = hexFixed (k + 1) n := by
  induction k with
  | zero =>
    intro n h
    have hn : n < 16 := by simpa using h
    rw [hexDigits_small n hn]
    simp [hexFixed, Nat.mod_eq_of_lt hn]
  | succ k ih =>
    intro n h
    by_cases hn : n < 16
    · rw [hexDigits_small n hn]
      have hd : n / 16 = 0 := by omega
      rw [hexFixed, hd, hexFixed_zero, Nat.mod_eq_of_lt hn]
      simp
    · have hlt : n / 16 < 16 ^ (k + 1) := by rw [pow_succ] at h; omega
      have hl := hexDigits_length_le k (n / 16) hlt
      rw [hexDigits_large n hn, hexFixed, ← ih (n / 16) hlt]
      simp only [List.length_append, List.length_singleton, List.append_assoc]
      have e : k + 1 + 1 - ((hexDigits (n / 16)).length + 1) = k + 1 - (hexDigits (n / 16)).length := by
        omega
      rw [e]

theorem fmt06X_eq (m : Nat) (h : m < 16777216) : fmt06X m = String.mk (hexFixed 6 m) := by
  unfold fmt06X
  rw [pad_hexDigits 5 m (by simpa using h)]

theorem hexFixed_length (k n : Nat) : (hexFixed k n).length = k := by
  induction k generalizing n with
  | zero => rfl
  | succ k ih => simp [hexFixed, ih]

theorem hexFixed_upper (k n : Nat) : ∀ c ∈ hexFixed k n, isUpperHex c = true := by
  induction k generalizing n with
  | zero => intro c hc; simp [hexFixed] at hc
  | succ k ih =>
    intro c hc
    simp only [hexFixed, List.mem_append, List.mem_singleton] at hc
    rcases hc with hc | hc
    · exact ih _ c hc
    · rw [hc]; exact (hexDigit_spec _ (Nat.mod_lt _ (by decide))).1

theorem hexValue_hexFixed (k n : Nat) : hexValue (hexFixed k n) = n % 16 ^ k := by
  induction k generalizing n with
  | zero => simp [hexFixed, hexValue, Nat.mod_one]
  | succ k ih =>
    have ih' := ih (n / 16)
    unfold hexValue at ih' ⊢
    simp only [hexFixed, List.foldl_append, List.foldl_cons, List.foldl_nil, ih',
      (hexDigit_spec _ (Nat.mod_lt n (by decide : 0 < 16))).2]
    rw [pow_succ, Nat.mul_comm (16 ^ k) 16, Nat.mod_mul]
    omega

/-! ## The bodies of `mem_get` and `mem_set` -/

theorem mem_get_body_eq (s : State) (adr size : Nat) :
    mem_get_body s adr size = beValue s (sLong adr) (accessWidth size) := by
  have h0 := peek_lt s (sLong adr)
  have h1 := peek_lt s (sLong adr + 1)
  have h2 := peek_lt s (sLong adr + 2)
  have h3 := peek_lt s (sLong adr + 3)
  unfold mem_get_body accessWidth
  by_cases hb : size = S_BYTE
  · simp [hb, beValue]
  · by_cases hw : size = S_WORD
    · subst hw
      have hne : ¬ S_WORD = S_BYTE := by decide
      simp only [hne, if_false, if_true, beValue]
      rw [shl32_or_byte _ _ h1]
      simp only [Nat.cast_zero, Nat.cast_one, add_zero]
      omega
    · simp only [hb, hw, if_false, beValue]
      rw [shl32_or_byte _ _ h1, shl32_or_byte _ _ h2, shl32_or_byte _ _ h3]
      simp only [Nat.cast_zero, Nat.cast_one, Nat.cast_ofNat, add_zero]
      omega

theorem poke_prog_ne (s : State) (o o' : Int) (v : Nat) (h : o' ≠ o) :
    (poke s o v).prog o' = s.prog o' := by
  simp [poke, h]

theorem poke_sameRegs (s : State) (o : Int) (v : Nat) : sameRegs s (poke s o v) := by
  simp [sameRegs, poke]

theorem sameRegs_trans {s t u : State} (hst : sameRegs s t) (htu : sameRegs t u) :
    sameRegs s u := by
  unfold sameRegs at hst htu ⊢
  refine ⟨?_, ?_, ?_, ?_, ?_, ?_⟩
  · rw [htu.1, hst.1]
  · rw [htu.2.1, hst.2.1]
  · rw [htu.2.2.1, hst.2.2.1]
  · rw [htu.2.2.2.1, hst.2.2.2.1]
  · rw [htu.2.2.2.2.1, hst.2.2.2.2.1]
  · rw [htu.2.2.2.2.2, hst.2.2.2.2.2]

theorem mem_set_body_sameRegs (s : State) (adr d size : Nat) :
    sameRegs s (mem_set_body s adr d size) := by
  unfold mem_set_body
  by_cases hb : size = S_BYTE
  · simp only [hb, if_true]; exact poke_sameRegs _ _ _
  · by_cases hw : size = S_WORD
    · subst hw
      have hne : ¬ S_WORD = S_BYTE := by decide
      simp only [hne, if_false, if_true]
      exact sameRegs_trans (poke_sameRegs _ _ _) (poke_sameRegs _ _ _)
    · simp only [hb, hw, if_false]
      exact sameRegs_trans (sameRegs_trans (sameRegs_trans (poke_sameRegs _ _ _)
        (poke_sameRegs _ _ _)) (poke_sameRegs _ _ _)) (poke_sameRegs _ _ _)

theorem mem_set_body_frame (s : State) (adr d size : Nat) (o : Int)
    (h : o < sLong adr ∨ sLong adr + (accessWidth size : Nat) ≤ o) :
    (mem_set_body s adr d size).prog o = s.prog o := by
  unfold accessWidth at h
  unfold mem_set_body
  by_cases hb : size = S_BYTE
  · simp only [hb, if_true] at h ⊢
    exact poke_prog_ne _ _ _ _ (by omega)
  · by_cases hw : size = S_WORD
    · subst hw
      have hne : ¬ S_WORD = S_BYTE := by decide
      simp only [hne, if_false, if_true] at h ⊢
      rw [poke_prog_ne _ _ _ _ (by omega), poke_prog_ne _ _ _ _ (by omega)]
    · simp only [hb, hw, if_false] at h ⊢
      rw [poke_prog_ne _ _ _ _ (by omega), poke_prog_ne _ _ _ _ (by omega),
        poke_prog_ne _ _ _ _ (by omega), poke_prog_ne _ _ _ _ (by omega)]

theorem mem_set_body_long_bytes (s : State) (adr d size : Nat)
    (hb : size ≠ S_BYTE) (hw : size ≠ S_WORD) :
    peek (mem_set_body s adr d size) (sLong adr) = d / 16777216 % 256 ∧
    peek (mem_set_body s adr d size) (sLong adr + 1) = d / 65536 % 256 ∧
    peek (mem_set_body s adr d size) (sLong adr + 2) = d / 256 % 256 ∧
    peek (mem_set_body s adr d size) (sLong adr + 3) = d % 256 := by
  unfold mem_set_body
  simp only [hb, hw, if_false, peek_poke, and_FF]
  have e1 : ¬ (sLong adr = sLong adr + 1) := by omega
  have e2 : ¬ (sLong adr = sLong adr + 2) := by omega
  have e3 : ¬ (sLong adr = sLong adr + 3) := by omega
  have e4 : ¬ (sLong adr + 1 = sLong adr + 2) := by omega
  have e5 : ¬ (sLong adr + 1 = sLong adr + 3) := by omega
  have e6 : ¬ (sLong adr + 2 = sLong adr + 3) := by omega
  simp only [e1, e2, e3, e4, e5, e6, if_false, if_true, Nat.mod_mod]
  exact ⟨sar32_24_byte d, sar32_16_byte d, sar32_8_byte d, trivial⟩

theorem mem_set_body_word_bytes (s : State) (adr d : Nat) :
    peek (mem_set_body s adr d S_WORD) (sLong adr) = d / 256 % 256 ∧
    peek (mem_set_body s adr d S_WORD) (sLong adr + 1) = d % 256 := by
  unfold mem_set_body
  have hne : ¬ S_WORD = S_BYTE := by decide
  simp only [hne, if_false, if_true, peek_poke, and_FF]
  have e1 : ¬ (sLong adr = sLong adr + 1) := by omega
  simp only [e1, if_false, if_true, Nat.mod_mod]
  exact ⟨sar32_8_byte d, trivial⟩

theorem mem_set_body_byte_bytes (s : State) (adr d : Nat) :
    peek (mem_set_body s adr d S_BYTE) (sLong adr) = d % 256 := by
  unfold mem_set_body
  simp only [if_true, peek_poke, and_FF, Nat.mod_mod]

theorem mem_set_body_value (s : State) (adr d size : Nat) :
    beValue (mem_set_body s adr d size) (sLong adr) (accessWidth size) =
      d % 256 ^ accessWidth size := by
  by_cases hb : size = S_BYTE
  · subst hb
    have h := mem_set_body_byte_bytes s adr d
    simp only [accessWidth, if_true, beValue, Nat.cast_zero, add_zero]
    omega
  · by_cases hw : size = S_WORD
    · subst hw
      obtain ⟨h0, h1⟩ := mem_set_body_word_bytes s adr d
      simp only [accessWidth, hb, if_false, if_true, beValue, Nat.cast_zero, Nat.cast_one,
        add_zero]
      omega
    · obtain ⟨h0, h1, h2, h3⟩ := mem_set_body_long_bytes s adr d size hb hw
      simp only [accessWidth, hb, hw, if_false, beValue, Nat.cast_zero, Nat.cast_one,
        Nat.cast_ofNat, add_zero]
      omega

theorem mem_get_fast (ENV_TOP : Nat) (s : State) (adr size : Nat)
    (hlo : (ENV_TOP : Int) ≤ sLong adr) (hhi : adr < s.mem_aloc) :
    mem_get ENV_TOP s adr size = .ret (mem_get_body s adr size) := by
  have h : ¬ (sLong adr < (ENV_TOP : Int) ∨ adr ≥ s.mem_aloc) := by
    rintro (h | h) <;> omega
  simp only [mem_get, h, if_false]

theorem mem_set_fast (ENV_TOP : Nat) (s : State) (adr d size : Nat)
    (hlo : (ENV_TOP : Int) ≤ sLong adr) (hhi : adr < s.mem_aloc) :
    mem_set ENV_TOP s adr d size = .ret (mem_set_body s adr d size) := by
  have h : ¬ (sLong adr < (ENV_TOP : Int) ∨ adr ≥ s.mem_aloc) := by
    rintro (h | h) <;> omega
  simp only [mem_set, h, if_false]

/-! ## The two guards -/

theorem mem_red_chk_io_through (s : State) (adr : Nat)
    (hm : 0xC00000 ≤ adr &&& 0x00FFFFFF) (hio : s.io_through = true) :
    mem_red_chk s adr = .ret false := by
  have h : (0xC00000 : Int) ≤ sLong (adr &&& 0x00FFFFFF) := by
    rw [sLong_mask24]; exact_mod_cast hm
  simp [mem_red_chk, h, hio]

theorem mem_wrt_chk_io_through (s : State) (adr : Nat)
    (hm : 0xC00000 ≤ adr &&& 0x00FFFFFF) (hio : s.io_through = true) :
    mem_wrt_chk s adr = .ret false := by
  have h : (0xC00000 : Int) ≤ sLong (adr &&& 0x00FFFFFF) := by
    rw [sLong_mask24]; exact_mod_cast hm
  simp [mem_wrt_chk, h, hio]

theorem mem_red_chk_io_fatal (s : State) (adr : Nat)
    (hm : 0xC00000 ≤ adr &&& 0x00FFFFFF) (hio : s.io_through = false) :
    mem_red_chk s adr =
      .fatal ("I/OポートorROM($" ++ fmt06X (adr &&& 0x00FFFFFF) ++ ")から読み込もうとしました。") := by
  have h : (0xC00000 : Int) ≤ sLong (adr &&& 0x00FFFFFF) := by
    rw [sLong_mask24]; exact_mod_cast hm
  simp [mem_red_chk, h, hio]

theorem mem_wrt_chk_io_fatal (s : State) (adr : Nat)
    (hm : 0xC00000 ≤ adr &&& 0x00FFFFFF) (hio : s.io_through = false) :
    mem_wrt_chk s adr =
      .fatal ("I/OポートorROM($" ++ fmt06X (adr &&& 0x00FFFFFF) ++ ")に書き込もうとしました。") := by
  have h : (0xC00000 : Int) ≤ sLong (adr &&& 0x00FFFFFF) := by
    rw [sLong_mask24]; exact_mod_cast hm
  simp [mem_wrt_chk, h, hio]

theorem mem_red_chk_invalid (s : State) (adr : Nat)
    (hm : adr &&& 0x00FFFFFF < 0xC00000)
    (hbad : SR_S_REF s = 0 ∨ s.mem_aloc ≤ adr &&& 0x00FFFFFF) :
    mem_red_chk s adr =
      .fatal ("不正アドレス($" ++ fmt06X (adr &&& 0x00FFFFFF) ++ ")からの読み込みです。") := by
  have h : ¬ (0xC00000 : Int) ≤ sLong (adr &&& 0x00FFFFFF) := by
    rw [sLong_mask24]; omega
  simp only [mem_red_chk, ge_iff_le, h, if_false, hbad, if_true]

theorem mem_wrt_chk_invalid (s : State) (adr : Nat)
    (hm : adr &&& 0x00FFFFFF < 0xC00000)
    (hbad : SR_S_REF s = 0 ∨ s.mem_aloc ≤ adr &&& 0x00FFFFFF) :
    mem_wrt_chk s adr =
      .fatal ("不正アドレスへの書き込みです($" ++ fmt06X (adr &&& 0x00FFFFFF) ++ ")") := by
  have h : ¬ (0xC00000 : Int) ≤ sLong (adr &&& 0x00FFFFFF) := by
    rw [sLong_mask24]; omega
  simp only [mem_wrt_chk, ge_iff_le, h, if_false, hbad, if_true]

theorem mem_red_chk_permitted (s : State) (adr : Nat)
    (hm : adr &&& 0x00FFFFFF < 0xC00000) (hs : SR_S_REF s ≠ 0)
    (ha : adr &&& 0x00FFFFFF < s.mem_aloc) :
    mem_red_chk s adr = .ret true := by
  have h : ¬ (0xC00000 : Int) ≤ sLong (adr &&& 0x00FFFFFF) := by
    rw [sLong_mask24]; omega
  have hbad : ¬ (SR_S_REF s = 0 ∨ s.mem_aloc ≤ adr &&& 0x00FFFFFF) := by
    rintro (h0 | h1)
    · exact hs h0
    · omega
  simp only [mem_red_chk, ge_iff_le, h, if_false, hbad]

theorem mem_wrt_chk_permitted (s : State) (adr : Nat)
    (hm : adr &&& 0x00FFFFFF < 0xC00000) (hs : SR_S_REF s ≠ 0)
    (ha : adr &&& 0x00FFFFFF < s.mem_aloc) :
    mem_wrt_chk s adr = .ret true := by
  have h : ¬ (0xC00000 : Int) ≤ sLong (adr &&& 0x00FFFFFF) := by
    rw [sLong_mask24]; omega
  have hbad : ¬ (SR_S_REF s = 0 ∨ s.mem_aloc ≤ adr &&& 0x00FFFFFF) := by
    rintro (h0 | h1)
    · exact hs h0
    · omega
  simp only [mem_wrt_chk, ge_iff_le, h, if_false, hbad]

/-- Decision table of one guard, for `mem_red_chk` and `mem_wrt_chk` alike. -/
theorem guard_table_aux (s : State) (adr : Nat) (g : Outcome Bool)
    (h1 : 0xC00000 ≤ adr &&& 0x00FFFFFF → s.io_through = true → g = .ret false)
    (h2 : 0xC00000 ≤ adr &&& 0x00FFFFFF → s.io_through = false → g.isFatal = true)
    (h3 : adr &&& 0x00FFFFFF < 0xC00000 →
      (SR_S_REF s = 0 ∨ s.mem_aloc ≤ adr &&& 0x00FFFFFF) → g.isFatal = true)
    (h4 : adr &&& 0x00FFFFFF < 0xC00000 → SR_S_REF s ≠ 0 →
      adr &&& 0x00FFFFFF < s.mem_aloc → g = .ret true) :
    (g = .ret false ↔ (0xC00000 ≤ adr &&& 0x00FFFFFF ∧ s.io_through = true)) ∧
    (g.isFatal = true ↔
      ((0xC00000 ≤ adr &&& 0x00FFFFFF ∧ s.io_through = false) ∨
       (adr &&& 0x00FFFFFF < 0xC00000 ∧
         (SR_S_REF s = 0 ∨ s.mem_aloc ≤ adr &&& 0x00FFFFFF)))) ∧
    (g = .ret true ↔
      (adr &&& 0x00FFFFFF < 0xC00000 ∧ SR_S_REF s ≠ 0 ∧
        adr &&& 0x00FFFFFF < s.mem_aloc)) := by
  by_cases hm : 0xC00000 ≤ adr &&& 0x00FFFFFF
  · have hm' : ¬ adr &&& 0x00FFFFFF < 0xC00000 := by omega
    cases hio : s.io_through
    · have hf := h2 hm hio
      cases g with
      | ret b => simp [Outcome.isFatal] at hf
      | fatal m => simp [Outcome.isFatal, hm, hm']
    · have hg := h1 hm hio
      subst hg
      simp [Outcome.isFatal, hm, hm']
  · have hm' : adr &&& 0x00FFFFFF < 0xC00000 := by omega
    by_cases hbad : SR_S_REF s = 0 ∨ s.mem_aloc ≤ adr &&& 0x00FFFFFF
    · have hf := h3 hm' hbad
      cases g with
      | ret b => simp [Outcome.isFatal] at hf
      | fatal m =>
        refine ⟨⟨fun h => (by cases h), fun h => absurd h.1 hm⟩,
          ⟨fun _ => Or.inr ⟨hm', hbad⟩, fun _ => rfl⟩,
          ⟨fun h => (by cases h), fun h => ?_⟩⟩
        rcases hbad with h0 | h1
        · exact absurd h0 h.2.1
        · have := h.2.2; omega
    · have hs : SR_S_REF s ≠ 0 := fun h => hbad (Or.inl h)
      have ha : adr &&& 0x00FFFFFF < s.mem_aloc := by
        by_contra hc; exact hbad (Or.inr (by omega))
      have hg := h4 hm' hs ha
      subst hg
      simp [Outcome.isFatal, hm, hm', hbad, hs, ha]

/-- C1. Decision table of the access guard, the same for the read guard
`mem_red_chk` and the write guard `mem_wrt_chk`: with `m = adr & 0x00FFFFFF`,
the guard returns false iff `m >= 0xC00000` and `io_through` is set; it takes
the fatal `err68` path iff (`m >= 0xC00000` and `io_through` is clear) or
(`m < 0xC00000` and (the supervisor bit is clear or `m >= mem_aloc`)); it
returns true iff `m < 0xC00000`, the supervisor bit is set and `m < mem_aloc`.
The two guards give the same outcome kind on the same state and address. -/
theorem access_guard_decision_table (s : State) (adr : Nat) :
    ((mem_red_chk s adr = .ret false ↔
        (0xC00000 ≤ adr &&& 0x00FFFFFF ∧ s.io_through = true)) ∧
     ((mem_red_chk s adr).isFatal = true ↔
        ((0xC00000 ≤ adr &&& 0x00FFFFFF ∧ s.io_through = false) ∨
         (adr &&& 0x00FFFFFF < 0xC00000 ∧
           (SR_S_REF s = 0 ∨ s.mem_aloc ≤ adr &&& 0x00FFFFFF)))) ∧
     (mem_red_chk s adr = .ret true ↔
        (adr &&& 0x00FFFFFF < 0xC00000 ∧ SR_S_REF s ≠ 0 ∧
          adr &&& 0x00FFFFFF < s.mem_aloc))) ∧
    ((mem_wrt_chk s adr = .ret false ↔
        (0xC00000 ≤ adr &&& 0x00FFFFFF ∧ s.io_through = true)) ∧
     ((mem_wrt_chk s adr).isFatal = true ↔
        ((0xC00000 ≤ adr &&& 0x00FFFFFF ∧ s.io_through = false) ∨
         (adr &&& 0x00FFFFFF < 0xC00000 ∧
           (SR_S_REF s = 0 ∨ s.mem_aloc ≤ adr &&& 0x00FFFFFF)))) ∧
     (mem_wrt_chk s adr = .ret true ↔
        (adr &&& 0x00FFFFFF < 0xC00000 ∧ SR_S_REF s ≠ 0 ∧
          adr &&& 0x00FFFFFF < s.mem_aloc))) ∧
    (mem_red_chk s adr).value = (mem_wrt_chk s adr).value ∧
    (mem_red_chk s adr).isFatal = (mem_wrt_chk s adr).isFatal := by
  have hr := guard_table_aux s adr (mem_red_chk s adr)
    (mem_red_chk_io_through s adr)
    (fun hm hio => by rw [mem_red_chk_io_fatal s adr hm hio]; rfl)
    (fun hm hbad => by rw [mem_red_chk_invalid s adr hm hbad]; rfl)
    (mem_red_chk_permitted s adr)
  have hw := guard_table_aux s adr (mem_wrt_chk s adr)
    (mem_wrt_chk_io_through s adr)
    (fun hm hio => by rw [mem_wrt_chk_io_fatal s adr hm hio]; rfl)
    (fun hm hbad => by rw [mem_wrt_chk_invalid s adr hm hbad]; rfl)
    (mem_wrt_chk_permitted s adr)
  refine ⟨hr, hw, ?_, ?_⟩
  · by_cases hm : 0xC00000 ≤ adr &&& 0x00FFFFFF
    · cases hio : s.io_through
      · rw [mem_red_chk_io_fatal s adr hm hio, mem_wrt_chk_io_fatal s adr hm hio]; rfl
      · rw [mem_red_chk_io_through s adr hm hio, mem_wrt_chk_io_through s adr hm hio]
    · have hm' : adr &&& 0x00FFFFFF < 0xC00000 := by omega
      by_cases hbad : SR_S_REF s = 0 ∨ s.mem_aloc ≤ adr &&& 0x00FFFFFF
      · rw [mem_red_chk_invalid s adr hm' hbad, mem_wrt_chk_invalid s adr hm' hbad]; rfl
      · have hs : SR_S_REF s ≠ 0 := fun h => hbad (Or.inl h)
        have ha : adr &&& 0x00FFFFFF < s.mem_aloc := by
          by_contra hc; exact hbad (Or.inr (by omega))
        rw [mem_red_chk_permitted s adr hm' hs ha, mem_wrt_chk_permitted s adr hm' hs ha]
  · exact Bool.eq_iff_iff.mpr (hr.2.1.trans hw.2.1.symm)

/-! ## Fast path, round trip and byte order -/

/-- C2. Fast path: for every 32-bit address `a` with `ENV_TOP <= a` (as the
signed `Long` that `a` is) and `a < mem_aloc`, in every state (so whatever
`sr` and `io_through` are) `mem_get` returns, without aborting and without
substituting, the big-endian composition of the 1, 2 or 4 bytes at offsets
`a ..`, and `mem_set` returns after storing the low 1, 2 or 4 bytes of `d`,
big-endian, into exactly those offsets: every other byte and every other
global is unchanged.  (The statement does not need the accessed bytes to lie
below `mem_aloc`.) -/
theorem fast_path_direct_access (ENV_TOP : Nat) (s : State) (a d size : Nat)
    (h32 : a < 4294967296) (hlo : (ENV_TOP : Int) ≤ sLong a) (hhi : a < s.mem_aloc) :
    mem_get ENV_TOP s a size = .ret (beValue s (a : Int) (accessWidth size)) ∧
    ∃ t, mem_set ENV_TOP s a d size = .ret t ∧
      beValue t (a : Int) (accessWidth size) = d % 256 ^ accessWidth size ∧
      (∀ o : Int, (o < (a : Int) ∨ (a : Int) + (accessWidth size : Nat) ≤ o) →
        t.prog o = s.prog o) ∧
      sameRegs s t := by
  have hs : sLong a = (a : Int) :=
    sLong_nonneg_eq h32 (le_trans (Int.ofNat_nonneg ENV_TOP) hlo)
  refine ⟨?_, mem_set_body s a d size, mem_set_fast ENV_TOP s a d size hlo hhi, ?_, ?_,
    mem_set_body_sameRegs s a d size⟩
  · rw [mem_get_fast ENV_TOP s a size hlo hhi, mem_get_body_eq, hs]
  · rw [← hs]; exact mem_set_body_value s a d size
  · intro o ho
    rw [← hs] at ho
    exact mem_set_body_frame s a d size o ho

/-- Instance of C2 at `ENV_TOP = 0x2100`, address `0x3000`, in user mode. -/
theorem fast_path_direct_access_witness :
    mem_get 0x2100 demoState 0x3000 S_LONG = .ret 0x12345678 ∧
    ∃ t, mem_set 0x2100 demoState 0x3000 0xCAFE S_WORD = .ret t ∧
      beValue t 0x3000 2 = 0xCAFE := by
  have h := fast_path_direct_access 0x2100 demoState 0x3000 0xCAFE S_WORD
    (by decide) (by decide) (by decide)
  have g := fast_path_direct_access 0x2100 demoState 0x3000 0 S_LONG
    (by decide) (by decide) (by decide)
  refine ⟨g.1.trans (by decide), ?_⟩
  obtain ⟨t, h1, h2, _⟩ := h.2
  exact ⟨t, h1, h2⟩

/-- C3. Long round trip: for every 32-bit value `v` and every address `a` of
the trusted range (`ENV_TOP <= a` and `a + 3 < mem_aloc`), `mem_set(a, v,
S_LONG)` returns and `mem_get(a, S_LONG)` in the resulting state returns
exactly `v`, also when the top bit of `v` is set. -/
theorem long_round_trip (ENV_TOP : Nat) (s : State) (a v : Nat)
    (hv : v < 4294967296) (hlo : (ENV_TOP : Int) ≤ sLong a) (hhi : a + 3 < s.mem_aloc) :
    ∃ t, mem_set ENV_TOP s a v S_LONG = .ret t ∧
      mem_get ENV_TOP t a S_LONG = .ret v := by
  have hhi' : a < s.mem_aloc := by omega
  refine ⟨mem_set_body s a v S_LONG, mem_set_fast ENV_TOP s a v S_LONG hlo hhi', ?_⟩
  have hal : (mem_set_body s a v S_LONG).mem_aloc = s.mem_aloc :=
    (mem_set_body_sameRegs s a v S_LONG).2.2.2.2.1
  rw [mem_get_fast ENV_TOP _ a S_LONG hlo (by rw [hal]; exact hhi'), mem_get_body_eq,
    mem_set_body_value]
  have hw : accessWidth S_LONG = 4 := by decide
  rw [hw]
  congr 1
  omega

/-- Instance of C3 with the top bit of the value set. -/
theorem long_round_trip_witness :
    ∃ t, mem_set 0x2100 demoState 0x3000 0x89ABCDEF S_LONG = .ret t ∧
      mem_get 0x2100 t 0x3000 S_LONG = .ret 0x89ABCDEF :=
  long_round_trip 0x2100 demoState 0x3000 0x89ABCDEF (by decide) (by decide) (by decide)

/-- C4. Big-endian layout of writes: for every value `v` and every trusted
address `a`, after `mem_set(a, v, S_LONG)` the bytes at `a, a+1, a+2, a+3` are
`(v>>24)&0xFF, (v>>16)&0xFF, (v>>8)&0xFF, v&0xFF`; after `mem_set(a, v,
S_WORD)` the bytes at `a, a+1` are `(v>>8)&0xFF, v&0xFF`; after `mem_set(a, v,
S_BYTE)` the byte at `a` is `v&0xFF`. -/
theorem big_endian_store_layout (ENV_TOP : Nat) (s : State) (a v : Nat)
    (h32 : a < 4294967296) (hlo : (ENV_TOP : Int) ≤ sLong a) (hhi : a < s.mem_aloc) :
    (∃ t, mem_set ENV_TOP s a v S_LONG = .ret t ∧
      peek t (a : Int) = (v >>> 24) &&& 0xFF ∧ peek t ((a : Int) + 1) = (v >>> 16) &&& 0xFF ∧
      peek t ((a : Int) + 2) = (v >>> 8) &&& 0xFF ∧ peek t ((a : Int) + 3) = v &&& 0xFF) ∧
    (∃ t, mem_set ENV_TOP s a v S_WORD = .ret t ∧
      peek t (a : Int) = (v >>> 8) &&& 0xFF ∧ peek t ((a : Int) + 1) = v &&& 0xFF) ∧
    (∃ t, mem_set ENV_TOP s a v S_BYTE = .ret t ∧ peek t (a : Int) = v &&& 0xFF) := by
  have hs : sLong a = (a : Int) :=
    sLong_nonneg_eq h32 (le_trans (Int.ofNat_nonneg ENV_TOP) hlo)
  simp only [and_FF, Nat.shiftRight_eq_div_pow]
  refine ⟨⟨_, mem_set_fast ENV_TOP s a v S_LONG hlo hhi, ?_⟩,
    ⟨_, mem_set_fast ENV_TOP s a v S_WORD hlo hhi, ?_⟩,
    ⟨_, mem_set_fast ENV_TOP s a v S_BYTE hlo hhi, ?_⟩⟩
  · have h := mem_set_body_long_bytes s a v S_LONG (by decide) (by decide)
    rw [hs] at h
    exact h
  · have h := mem_set_body_word_bytes s a v
    rw [hs] at h
    exact h
  · have h := mem_set_body_byte_bytes s a v
    rw [hs] at h
    exact h

/-- Instance of C4: the long `0x12345678` is stored as `12 34 56 78`. -/
theorem big_endian_store_layout_witness :
    ∃ t, mem_set 0x2100 demoState 0x5000 0x12345678 S_LONG = .ret t ∧
      peek t 0x5000 = 0x12 ∧ peek t 0x5001 = 0x34 ∧
      peek t 0x5002 = 0x56 ∧ peek t 0x5003 = 0x78 := by
  obtain ⟨t, h0, h1, h2, h3, h4⟩ :=
    (big_endian_store_layout 0x2100 demoState 0x5000 0x12345678
      (by decide) (by decide) (by decide)).1
  exact ⟨t, h0, h1, h2, h3, h4⟩

/-! ## The I/O region -/

theorem mask24_le (a : Nat) : a &&& 0x00FFFFFF ≤ a := by
  rw [mask24_eq_mod]; exact Nat.mod_le a _

theorem io_pass_through_slow (ENV_TOP : Nat) (s : State) (a d size : Nat)
    (hm : 0xC00000 ≤ a &&& 0x00FFFFFF) (hio : s.io_through = true)
    (hslow : sLong a < (ENV_TOP : Int) ∨ s.mem_aloc ≤ a) :
    mem_get ENV_TOP s a size = .ret 0 ∧ mem_set ENV_TOP s a d size = .ret s := by
  have hslow' : sLong a < (ENV_TOP : Int) ∨ a ≥ s.mem_aloc := hslow
  constructor
  · simp only [mem_get, hslow', if_true, mem_red_chk_io_through s a hm hio]
  · simp only [mem_set, hslow', if_true, mem_wrt_chk_io_through s a hm hio]

/-- C5. I/O region with pass-through enabled: in every state whose allocated
memory ends at or below the I/O region (`mem_aloc <= 0xC00000`: the addresses
from `0xC00000` on are I/O ports or ROM, never allocated memory), for every
address `a` whose low 24 bits are `>= 0xC00000`, when `io_through` is set
`mem_get(a, size)` returns 0 for every size and whatever the buffer holds,
`mem_set(a, d, size)` returns with the whole state unchanged, and neither call
aborts, whatever the supervisor bit is. -/
theorem io_pass_through_enabled (ENV_TOP : Nat) (s : State) (a d size : Nat)
    (hal : s.mem_aloc ≤ 0xC00000)
    (hm : 0xC00000 ≤ a &&& 0x00FFFFFF) (hio : s.io_through = true) :
    mem_get ENV_TOP s a size = .ret 0 ∧ mem_set ENV_TOP s a d size = .ret s := by
  have hle := mask24_le a
  exact io_pass_through_slow ENV_TOP s a d size hm hio (Or.inr (by omega))

/-- Instance of C5: the address `0xFFE80000` (negative as a `Long`, low 24
bits `0xE80000`) and the address `0x00C00000`, in user mode, with 1 MiB
allocated and a buffer that holds `0xEE` everywhere. -/
theorem io_pass_through_enabled_witness :
    (mem_get 0x2100 passState 0xFFE80000 S_LONG = .ret 0 ∧
      mem_set 0x2100 passState 0xFFE80000 0x1234 S_LONG = .ret passState) ∧
    (mem_get 0x2100 passState 0x00C00000 S_BYTE = .ret 0 ∧
      mem_set 0x2100 passState 0x00C00000 0x1234 S_BYTE = .ret passState) :=
  ⟨io_pass_through_enabled 0x2100 passState 0xFFE80000 0x1234 S_LONG
      (by decide) (by decide) rfl,
    io_pass_through_enabled 0x2100 passState 0x00C00000 0x1234 S_BYTE
      (by decide) (by decide) rfl⟩

/-- C6. I/O region with pass-through disabled: for every address `a` whose
low 24 bits `m` are `>= 0xC00000`, when `io_through` is clear both
`mem_red_chk(a)` and `mem_wrt_chk(a)` end in `err68` (they return no value),
and the message given to `err68` contains, between `$` and `)`, exactly six
uppercase hexadecimal digits whose value is the masked address `m`. -/
theorem io_region_fatal_message (s : State) (a : Nat)
    (hm : 0xC00000 ≤ a &&& 0x00FFFFFF) (hio : s.io_through = false) :
    ∃ ds : List Char, ds.length = 6 ∧ (∀ c ∈ ds, isUpperHex c = true) ∧
      hexValue ds = a &&& 0x00FFFFFF ∧
      mem_red_chk s a =
        .fatal ("I/OポートorROM($" ++ String.mk ds ++ ")から読み込もうとしました。") ∧
      mem_wrt_chk s a =
        .fatal ("I/OポートorROM($" ++ String.mk ds ++ ")に書き込もうとしました。") := by
  have hlt := mask24_lt a
  refine ⟨hexFixed 6 (a &&& 0x00FFFFFF), hexFixed_length _ _, hexFixed_upper _ _, ?_, ?_, ?_⟩
  · rw [hexValue_hexFixed]
    exact Nat.mod_eq_of_lt (by simpa using hlt)
  · rw [mem_red_chk_io_fatal s a hm hio, fmt06X_eq _ hlt]
  · rw [mem_wrt_chk_io_fatal s a hm hio, fmt06X_eq _ hlt]

/-- Instance of C6: the address `0xFFE8E00D` is reported as `E8E00D`. -/
theorem io_region_fatal_message_witness :
    (∃ ds : List Char, ds.length = 6 ∧ (∀ c ∈ ds, isUpperHex c = true) ∧
      hexValue ds = 0xE8E00D ∧
      mem_red_chk demoState 0xFFE8E00D =
        .fatal ("I/OポートorROM($" ++ String.mk ds ++ ")から読み込もうとしました。") ∧
      mem_wrt_chk demoState 0xFFE8E00D =
        .fatal ("I/OポートorROM($" ++ String.mk ds ++ ")に書き込もうとしました。")) ∧
    fmt06X 0xE8E00D = "E8E00D" :=
  ⟨io_region_fatal_message demoState 0xFFE8E00D (by decide) rfl,
    (fmt06X_eq _ (by decide)).trans (by decide)⟩

/-! ## User mode -/

/-- C7, counterexample. In user mode (supervisor bit clear) the address
`0x3000`, whose low 24 bits are below `0xC00000`, lies on the fast path
`ENV_TOP <= a < mem_aloc`: `mem_get` returns the long stored there and
`mem_set` returns; neither aborts. -/
theorem user_mode_fatal_counterexample :
    SR_S_REF demoState = 0 ∧ (0x3000 &&& 0x00FFFFFF < 0xC00000) ∧
    mem_get 0x2100 demoState 0x3000 S_LONG = .ret 0x12345678 ∧
    (mem_get 0x2100 demoState 0x3000 S_LONG).isFatal = false ∧
    (mem_set 0x2100 demoState 0x3000 0 S_LONG).isFatal = false := by
  refine ⟨by decide, by decide, by decide, by decide, ?_⟩
  rw [mem_set_fast 0x2100 demoState 0x3000 0 S_LONG (by decide) (by decide)]
  rfl

/-- C7, amended. When the supervisor bit of `sr` is clear, for every address
`a` whose low 24 bits are below `0xC00000` and that is not on the fast path
(`a < ENV_TOP` as a signed `Long`, or `a >= mem_aloc`), `mem_get(a, size)` and
`mem_set(a, d, size)` end in `err68` with the invalid-address message for the
masked address, instead of performing the access. -/
theorem user_mode_fatal_off_fast_path (ENV_TOP : Nat) (s : State) (a d size : Nat)
    (hs : SR_S_REF s = 0) (hm : a &&& 0x00FFFFFF < 0xC00000)
    (hslow : sLong a < (ENV_TOP : Int) ∨ s.mem_aloc ≤ a) :
    mem_get ENV_TOP s a size =
      .fatal ("不正アドレス($" ++ fmt06X (a &&& 0x00FFFFFF) ++ ")からの読み込みです。") ∧
    mem_set ENV_TOP s a d size =
      .fatal ("不正アドレスへの書き込みです($" ++ fmt06X (a &&& 0x00FFFFFF) ++ ")") := by
  have hslow' : sLong a < (ENV_TOP : Int) ∨ a ≥ s.mem_aloc := hslow
  constructor
  · simp only [mem_get, hslow', if_true, mem_red_chk_invalid s a hm (Or.inl hs)]
  · simp only [mem_set, hslow', if_true, mem_wrt_chk_invalid s a hm (Or.inl hs)]

/-- Instance of the amended C7: address `0x1000`, below `ENV_TOP = 0x2100`. -/
theorem user_mode_fatal_off_fast_path_witness :
    (mem_get 0x2100 demoState 0x1000 S_BYTE).isFatal = true ∧
    (mem_set 0x2100 demoState 0x1000 0xFF S_BYTE).isFatal = true := by
  have h := user_mode_fatal_off_fast_path 0x2100 demoState 0x1000 0xFF S_BYTE
    (by decide) (by decide) (Or.inl (by decide))
  rw [h.1, h.2]
  exact ⟨rfl, rfl⟩

/-! ## Operand fetch -/

theorem extbl_eq (b : Nat) : extbl b = toLong (signed8 b) := by
  unfold extbl toLong signed8
  split <;> omega

theorem extl_eq (w : Nat) : extl w = toLong (signed16 w) := by
  unfold extl toLong signed16
  split <;> omega

theorem add32_toLong (x : Nat) (v : Int) : add32 x (toLong v) = toLong ((x : Int) + v) := by
  unfold add32 toLong
  omega

theorem add32_toLong_toLong (u v : Int) : add32 (toLong u) (toLong v) = toLong (u + v) := by
  unfold add32 toLong
  omega

/-- C8. Indexed effective address: with `e` the byte at `pc`, `d` the byte at
`pc + 1` and `r = (e >> 4) & 7`, the register is `ra[r]` if `e & 0x80` is set
and `rd[r]` otherwise, `x` is its full 32-bit value if `e & 0x08` is set and
the sign extension of its low 16 bits otherwise, and `idx_get` returns
`x + sext8(d)` modulo `2 ^ 32`.  `pc` is advanced by 2 (in the 32 bits of
`pc`, so by exactly 2 whenever `pc + 2` fits) and nothing else changes. -/
theorem idx_get_effective_address (s : State) :
    (idx_get s).1 =
      toLong ((if peek s (s.pc : Int) &&& 0x08 ≠ 0 then
          ((if peek s (s.pc : Int) &&& 0x80 ≠ 0 then s.ra ((peek s (s.pc : Int) >>> 4) &&& 7)
            else s.rd ((peek s (s.pc : Int) >>> 4) &&& 7) : Nat) : Int)
        else
          signed16 (if peek s (s.pc : Int) &&& 0x80 ≠ 0
            then s.ra ((peek s (s.pc : Int) >>> 4) &&& 7)
            else s.rd ((peek s (s.pc : Int) >>> 4) &&& 7)))
        + signed8 (peek s ((s.pc : Int) + 1))) ∧
    (idx_get s).2.pc = (s.pc + 2) % 4294967296 ∧
    (s.pc + 2 < 4294967296 → (idx_get s).2.pc = s.pc + 2) ∧
    (idx_get s).2.prog = s.prog ∧ (idx_get s).2.ra = s.ra ∧ (idx_get s).2.rd = s.rd ∧
    (idx_get s).2.sr = s.sr ∧ (idx_get s).2.mem_aloc = s.mem_aloc ∧
    (idx_get s).2.io_through = s.io_through := by
  refine ⟨?_, rfl, fun h => Nat.mod_eq_of_lt h, rfl, rfl, rfl, rfl, rfl, rfl⟩
  simp only [idx_get]
  by_cases h8 : peek s (s.pc : Int) &&& 0x08 = 0
  · simp only [h8, if_true, ne_eq, not_true_eq_false, if_false]
    rw [extbl_eq, extl_eq, add32_toLong_toLong]
  · simp only [h8, if_false, ne_eq, not_false_eq_true, if_true]
    rw [extbl_eq, add32_toLong]

/-- Instance of C8: address register 1 used as a sign-extended word with a
negative displacement, `0xFFFF8000 + 0xFFFFFFFE` modulo `2 ^ 32`. -/
theorem idx_get_effective_address_witness :
    (idx_get { demoState with
        prog := fun o => if o = 0x4000 then 0x90 else 0xFE,
        ra := fun _ => 0x12348000 }).1 = 0xFFFF7FFE ∧
    (idx_get demoState).2.pc = 0x4002 :=
  ⟨(idx_get_effective_address _).1.trans (by decide),
    (idx_get_effective_address demoState).2.2.1 (by decide)⟩

/-- C9, counterexample. With the extension word `0x0804` at `pc` (bytes `08
04`) and `d0 = 0x1000`, the displacement is the low byte `0x04` and `idx_get`
returns `0x1004`, not `0x1010`. -/
theorem idx_get_example_counterexample :
    peek ext0804State (ext0804State.pc : Int) = 0x08 ∧
    peek ext0804State ((ext0804State.pc : Int) + 1) = 0x04 ∧
    ext0804State.rd 0 = 0x1000 ∧
    (idx_get ext0804State).1 = 0x1004 ∧ (idx_get ext0804State).1 ≠ 0x1010 := by
  refine ⟨by decide, by decide, by decide, by decide, by decide⟩

/-- C9, amended. With the byte `0x08` at `pc` (data register 0 selected,
full 32-bit flag set) and `d0 = 0x00001000`, `idx_get` returns `0x00001000`
plus the sign-extended displacement byte at `pc + 1`, the low byte of the
extension word: `0x00001010` for the extension word `0x0810` (displacement
byte `0x10`) and `0x00001004` for the extension word `0x0804`; `pc` advances
by 2. -/
theorem idx_get_example_d0_long (s : State)
    (he : peek s (s.pc : Int) = 0x08) (hr : s.rd 0 = 0x1000) :
    (idx_get s).1 = toLong (0x1000 + signed8 (peek s ((s.pc : Int) + 1))) ∧
    (peek s ((s.pc : Int) + 1) = 0x10 → (idx_get s).1 = 0x1010) ∧
    (peek s ((s.pc : Int) + 1) = 0x04 → (idx_get s).1 = 0x1004) ∧
    (idx_get s).2.pc = (s.pc + 2) % 4294967296 ∧
    (s.pc + 2 < 4294967296 → (idx_get s).2.pc = s.pc + 2) := by
  have e1 : (8 : Nat) >>> 4 &&& 7 = 0 := by decide
  have e2 : ¬ ((8 : Nat) &&& 128 ≠ 0) := by decide
  have e3 : ¬ ((8 : Nat) &&& 8 = 0) := by decide
  have hv : (idx_get s).1 = toLong (0x1000 + signed8 (peek s ((s.pc : Int) + 1))) := by
    simp only [idx_get, he, e1, e2, e3, if_false, hr]
    rw [extbl_eq, add32_toLong]
    rfl
  refine ⟨hv, fun hd => ?_, fun hd => ?_, rfl, fun h => Nat.mod_eq_of_lt h⟩
  · rw [hv, hd]; decide
  · rw [hv, hd]; decide

/-- Instance of the amended C9, at a state with the bytes `08 10` at `pc`. -/
theorem idx_get_example_d0_long_witness :
    (idx_get demoState).1 = 0x1010 ∧ (idx_get demoState).2.pc = 0x4002 := by
  have h := idx_get_example_d0_long demoState (by decide) (by decide)
  exact ⟨h.2.1 (by decide), h.2.2.2.2 (by decide)⟩

/-- C10. Immediate fetch, word and long: `imi_get(S_WORD)` returns
`256 * b0 + b1`, a value in `0 .. 0xFFFF`, where `b0, b1` are the bytes at the
old `pc` and `pc + 1`, and advances `pc` by 2; `imi_get(S_LONG)` returns the
big-endian composition of the four bytes at the old `pc .. pc + 3` and
advances `pc` by 4.  The advance is in the 32 bits of `pc`, so exact whenever
the new value fits; nothing else changes. -/
theorem imi_get_word_long (s : State) :
    ((imi_get s S_WORD).1 = 256 * peek s (s.pc : Int) + peek s ((s.pc : Int) + 1) ∧
      (imi_get s S_WORD).1 ≤ 0xFFFF ∧
      (imi_get s S_WORD).2 = { s with pc := (s.pc + 2) % 4294967296 } ∧
      (s.pc + 2 < 4294967296 → (imi_get s S_WORD).2.pc = s.pc + 2)) ∧
    ((imi_get s S_LONG).1 =
        16777216 * peek s (s.pc : Int) + 65536 * peek s ((s.pc : Int) + 1)
          + 256 * peek s ((s.pc : Int) + 2) + peek s ((s.pc : Int) + 3) ∧
      (imi_get s S_LONG).2 = { s with pc := (s.pc + 4) % 4294967296 } ∧
      (s.pc + 4 < 4294967296 → (imi_get s S_LONG).2.pc = s.pc + 4)) := by
  have h0 := peek_lt s (s.pc : Int)
  have h1 := peek_lt s ((s.pc : Int) + 1)
  have h2 := peek_lt s ((s.pc : Int) + 2)
  have h3 := peek_lt s ((s.pc : Int) + 3)
  have hw : ¬ S_WORD = S_BYTE := by decide
  have hl1 : ¬ S_LONG = S_BYTE := by decide
  have hl2 : ¬ S_LONG = S_WORD := by decide
  have ew : (imi_get s S_WORD).1 = 256 * peek s (s.pc : Int) + peek s ((s.pc : Int) + 1) := by
    simp only [imi_get, hw, if_false, if_true]
    rw [shl32_or_byte _ _ h1]
    omega
  refine ⟨⟨ew, ?_, ?_, ?_⟩, ?_, ?_, ?_⟩
  · rw [ew]; omega
  · simp only [imi_get, hw, if_false, if_true]
  · intro h
    simp only [imi_get, hw, if_false, if_true]
    exact Nat.mod_eq_of_lt h
  · simp only [imi_get, hl1, hl2, if_false]
    rw [shl32_or_byte _ _ h1, shl32_or_byte _ _ h2, shl32_or_byte _ _ h3]
    omega
  · simp only [imi_get, hl1, hl2, if_false]
  · intro h
    simp only [imi_get, hl1, hl2, if_false]
    exact Nat.mod_eq_of_lt h

/-- Instance of C10: the bytes `12 34` give `0x1234`, the bytes `01 02 03 04`
give `0x01020304`, and `pc` moves by 2 and by 4. -/
theorem imi_get_word_long_witness :
    (imi_get { immState with pc := 0x3004 } S_WORD).1 = 0x1234 ∧
    (imi_get { immState with pc := 0x3004 } S_WORD).2.pc = 0x3006 ∧
    (imi_get immState S_LONG).1 = 0x01020304 ∧
    (imi_get immState S_LONG).2.pc = 0x3004 :=
  ⟨(imi_get_word_long _).1.1.trans (by decide),
    (imi_get_word_long { immState with pc := 0x3004 }).1.2.2.2 (by decide),
    (imi_get_word_long immState).2.1.trans (by decide),
    (imi_get_word_long immState).2.2.2 (by decide)⟩

/-- C11. Immediate fetch, byte: `imi_get(S_BYTE)` returns the byte at the old
`pc + 1` zero-extended, a value in `0 .. 255`; the result is the same whatever
byte is stored at the old `pc`; `pc` is advanced by 2 (in the 32 bits of
`pc`, so by exactly 2 whenever `pc + 2` fits) and nothing else changes. -/
theorem imi_get_byte (s : State) :
    (imi_get s S_BYTE).1 = peek s ((s.pc : Int) + 1) ∧
    (imi_get s S_BYTE).1 ≤ 255 ∧
    (∀ v : Nat, (imi_get (poke s (s.pc : Int) v) S_BYTE).1 = (imi_get s S_BYTE).1) ∧
    (imi_get s S_BYTE).2 = { s with pc := (s.pc + 2) % 4294967296 } ∧
    (s.pc + 2 < 4294967296 → (imi_get s S_BYTE).2.pc = s.pc + 2) := by
  have hv : (imi_get s S_BYTE).1 = peek s ((s.pc : Int) + 1) := by
    simp only [imi_get, if_true]
  refine ⟨hv, ?_, ?_, ?_, ?_⟩
  · rw [hv]
    have := peek_lt s ((s.pc : Int) + 1)
    omega
  · intro v
    rw [hv]
    have hpc : (poke s (s.pc : Int) v).pc = s.pc := rfl
    have hne : ¬ ((s.pc : Int) + 1 = (s.pc : Int)) := by omega
    simp only [imi_get, if_true, hpc, peek_poke, hne, if_false]
  · simp only [imi_get, if_true]
  · intro h
    simp only [imi_get, if_true]
    exact Nat.mod_eq_of_lt h

/-- Instance of C11: the bytes `00 FF` give `0xFF` (255), and `pc` moves from
`0x3000` to `0x3002`. -/
theorem imi_get_byte_witness :
    (imi_get byteImmState S_BYTE).1 = 0xFF ∧ (imi_get byteImmState S_BYTE).2.pc = 0x3002 :=
  ⟨(imi_get_byte byteImmState).1.trans (by decide),
    (imi_get_byte byteImmState).2.2.2.2 (by decide)⟩

/-! ## Abort -/

theorem fmt08X_eq (n : Nat) (h : n < 4294967296) : fmt08X n = String.mk (hexFixed 8 n) := by
  unfold fmt08X
  rw [pad_hexDigits 7 n (by simpa using h)]

theorem traceDump_stdout (s : State) : ∀ e ∈ traceDump s, ∃ t, e = Effect.stdout t := by
  intro e he
  simp only [traceDump, List.mem_append, List.mem_map, List.mem_singleton] at he
  rcases he with (((((h | ⟨i, _, h⟩) | h) | h) | ⟨i, _, h⟩) | h) | h
  · exact ⟨_, h⟩
  · exact ⟨_, h.symm⟩
  · exact ⟨_, h⟩
  · exact ⟨_, h⟩
  · exact ⟨_, h.symm⟩
  · exact ⟨_, h⟩
  · exact ⟨_, h⟩

theorem count_close_of_stdout (dump : List Effect)
    (h : ∀ e ∈ dump, ∃ t, e = Effect.stdout t) :
    dump.count Effect.close_all_files = 0 := by
  rw [List.count_eq_zero]
  intro hmem
  obtain ⟨t, ht⟩ := h _ hmem
  cases ht

/-- C12. Abort protocol: for every 32-bit address `adr`, in every state and
in both builds, `run68_abort(adr)` first writes to `stderr` a line containing
`adr` as exactly eight (uppercase) hexadecimal digits, then calls
`close_all_files` exactly once, then (only in the `TRACE` build) prints the
register dump, and ends with `longjmp(jmp_when_abort, 2)`: it does not return
to its caller, and the status handed to the checkpoint is 2. -/
theorem run68_abort_protocol (TRACE : Bool) (s : State) (adr : Nat)
    (h32 : adr < 4294967296) :
    ∃ (ds : List Char) (dump : List Effect),
      ds.length = 8 ∧ (∀ c ∈ ds, isUpperHex c = true) ∧ hexValue ds = adr ∧
      (∀ e ∈ dump, ∃ t, e = Effect.stdout t) ∧
      run68_abort TRACE s adr =
        (Effect.stderr ("アドレス：" ++ String.mk ds ++ "\n") :: Effect.close_all_files :: dump,
          Control.longjmp 2) ∧
      (run68_abort TRACE s adr).1.count Effect.close_all_files = 1 ∧
      (run68_abort TRACE s adr).2 ≠ Control.returns := by
  have hd : ∀ e ∈ (if TRACE then traceDump s else []), ∃ t, e = Effect.stdout t := by
    cases TRACE
    · intro e he; simp at he
    · simpa using traceDump_stdout s
  have hrun : run68_abort TRACE s adr =
      (Effect.stderr ("アドレス：" ++ String.mk (hexFixed 8 adr) ++ "\n")
        :: Effect.close_all_files :: (if TRACE then traceDump s else []),
        Control.longjmp 2) := by
    simp only [run68_abort, fmt08X_eq adr h32, List.cons_append, List.nil_append]
  refine ⟨hexFixed 8 adr, if TRACE then traceDump s else [], hexFixed_length _ _,
    hexFixed_upper _ _, ?_, hd, hrun, ?_, ?_⟩
  · rw [hexValue_hexFixed]
    exact Nat.mod_eq_of_lt (by simpa using h32)
  · rw [hrun]
    simp only [List.count_cons, count_close_of_stdout _ hd, beq_self_eq_true, if_true]
    simp
  · rw [hrun]
    simp

/-- Instance of C12: for `adr = 0x00C12345` the line is `00C12345`, which
contains `C12345`; one `close_all_files`, then `longjmp` with 2. -/
theorem run68_abort_protocol_witness :
    (∃ (ds : List Char) (dump : List Effect),
      ds.length = 8 ∧ (∀ c ∈ ds, isUpperHex c = true) ∧ hexValue ds = 0x00C12345 ∧
      (∀ e ∈ dump, ∃ t, e = Effect.stdout t) ∧
      run68_abort false demoState 0x00C12345 =
        (Effect.stderr ("アドレス：" ++ String.mk ds ++ "\n") :: Effect.close_all_files :: dump,
          Control.longjmp 2) ∧
      (run68_abort false demoState 0x00C12345).1.count Effect.close_all_files = 1 ∧
      (run68_abort false demoState 0x00C12345).2 ≠ Control.returns) ∧
    fmt08X 0x00C12345 = "00C12345" ∧
    run68_abort false demoState 0x00C12345 =
      ([Effect.stderr ("アドレス：" ++ fmt08X 0x00C12345 ++ "\n"), Effect.close_all_files],
        Control.longjmp 2) :=
  ⟨run68_abort_protocol false demoState 0x00C12345 (by decide),
    (fmt08X_eq _ (by decide)).trans (by decide), rfl⟩

/-! ## Which bytes an access touches -/

theorem mem_set_of_guard_true (ENV_TOP : Nat) (s : State) (adr d size : Nat)
    (hg : mem_wrt_chk s adr = .ret true) :
    mem_set ENV_TOP s adr d size = .ret (mem_set_body s adr d size) := by
  unfold mem_set
  split
  · rw [hg]
  · rfl

theorem mem_get_of_guard_true (ENV_TOP : Nat) (s : State) (adr size : Nat)
    (hg : mem_red_chk s adr = .ret true) :
    mem_get ENV_TOP s adr size = .ret (mem_get_body s adr size) := by
  unfold mem_get
  split
  · rw [hg]
  · rfl

/-- C14, the code at a failing input. In supervisor mode with 1 MiB allocated
the guards accept the address `0x01003000`, having validated the masked
address `0x003000`; `mem_get` then reads the byte at offset `0x01003000`
(beyond `mem_aloc`), not the byte at `0x003000`, and `mem_set` writes at
offset `0x01003000` and leaves the byte at `0x003000` as it was. -/
theorem unmasked_dereference_example :
    0x01003000 &&& 0x00FFFFFF = 0x003000 ∧
    mem_red_chk superState 0x01003000 = .ret true ∧
    mem_wrt_chk superState 0x01003000 = .ret true ∧
    peek superState 0x003000 = 0x11 ∧
    mem_get 0x2100 superState 0x01003000 S_BYTE = .ret 0x99 ∧
    superState.mem_aloc ≤ 0x01003000 ∧
    ∃ t, mem_set 0x2100 superState 0x01003000 0x55 S_BYTE = .ret t ∧
      t.prog 0x01003000 = 0x55 ∧ t.prog 0x003000 = 0x11 := by
  refine ⟨by decide, by decide, by decide, by decide, by decide, by decide,
    mem_set_body superState 0x01003000 0x55 S_BYTE,
    mem_set_of_guard_true 0x2100 superState 0x01003000 0x55 S_BYTE (by decide),
    by decide, by decide⟩

/-- C16, the code at a failing input. With `mem_aloc = 0x100000` the address
`0xFFFFF = mem_aloc - 1` is on the fast path; a long read there composes the
bytes at offsets `0xFFFFF, 0x100000, 0x100001, 0x100002`, and a long write
there stores at offsets `0x100000, 0x100001, 0x100002`, which are not below
`mem_aloc`. -/
theorem long_access_past_allocation_example :
    superState.mem_aloc = 0x100000 ∧
    mem_get 0x2100 superState 0xFFFFF S_LONG = .ret 0xAABBCCDD ∧
    mem_get 0x2100 (poke superState 0x100002 0x77) 0xFFFFF S_LONG = .ret 0xAABBCC77 ∧
    ∃ t, mem_set 0x2100 superState 0xFFFFF 0x11223344 S_LONG = .ret t ∧
      t.prog 0xFFFFF = 0x11 ∧ t.prog 0x100000 = 0x22 ∧
      t.prog 0x100001 = 0x33 ∧ t.prog 0x100002 = 0x44 ∧
      superState.prog 0x100000 = 0xBB ∧ superState.prog 0x100001 = 0xCC ∧
      superState.prog 0x100002 = 0xDD := by
  refine ⟨rfl, by decide, by decide, mem_set_body superState 0xFFFFF 0x11223344 S_LONG,
    mem_set_fast 0x2100 superState 0xFFFFF 0x11223344 S_LONG (by decide) (by decide),
    by decide, by decide, by decide, by decide, by decide, by decide, by decide⟩

/-! ## The brief extension word -/

theorem brief_reg_field (x : Nat) : (x >>> 4) &&& 0x07 = ((x &&& 0xF8) >>> 4) &&& 0x07 := by
  apply Nat.eq_of_testBit_eq
  intro i
  simp only [Nat.testBit_and, Nat.testBit_shiftRight]
  by_cases hi : i < 3
  · have h248 : Nat.testBit 0xF8 (4 + i) = true := by
      interval_cases i <;> decide
    rw [h248, Bool.and_true]
  · have h7 : Nat.testBit 0x07 i = false :=
      Nat.testBit_eq_false_of_lt (lt_of_lt_of_le (by decide : 7 < 2 ^ 3)
        (Nat.pow_le_pow_right (by decide) (by omega)))
    rw [h7, Bool.and_false, Bool.and_false]

theorem brief_fields (e e' : Nat) (h : e &&& 0xF8 = e' &&& 0xF8) :
    (e >>> 4) &&& 0x07 = (e' >>> 4) &&& 0x07 ∧ e &&& 0x80 = e' &&& 0x80 ∧
      e &&& 0x08 = e' &&& 0x08 := by
  have m1 : (0xF8 : Nat) &&& 0x80 = 0x80 := by decide
  have m2 : (0xF8 : Nat) &&& 0x08 = 0x08 := by decide
  have k1 : ∀ x : Nat, x &&& 0x80 = (x &&& 0xF8) &&& 0x80 := by
    intro x; rw [Nat.and_assoc, m1]
  have k2 : ∀ x : Nat, x &&& 0x08 = (x &&& 0xF8) &&& 0x08 := by
    intro x; rw [Nat.and_assoc, m2]
  exact ⟨by rw [brief_reg_field e, brief_reg_field e', h], by rw [k1 e, k1 e', h],
    by rw [k2 e, k2 e', h]⟩

/-- C15. Scale bits are ignored: for two states with the same `pc`, the same
registers and the same displacement byte at `pc + 1`, whose extension bytes at
`pc` agree on the bits `0xF8` (they differ at most in the two SCALE bits and
the lowest bit), `idx_get` returns the same effective address and leaves the
same `pc`. -/
theorem idx_get_ignores_scale (s s' : State)
    (hpc : s'.pc = s.pc) (hra : s'.ra = s.ra) (hrd : s'.rd = s.rd)
    (hd : peek s' ((s.pc : Int) + 1) = peek s ((s.pc : Int) + 1))
    (he : peek s' (s.pc : Int) &&& 0xF8 = peek s (s.pc : Int) &&& 0xF8) :
    (idx_get s').1 = (idx_get s).1 ∧ (idx_get s').2.pc = (idx_get s).2.pc := by
  obtain ⟨f1, f2, f3⟩ := brief_fields _ _ he
  constructor
  · simp only [idx_get, hpc, hra, hrd, hd, f1, f2, f3]
  · simp only [idx_get, hpc]

/-- Instance of C15: the extension bytes `0x08` and `0x0F` (both SCALE bits
and the lowest bit set) give the same effective address `0x1010`. -/
theorem idx_get_ignores_scale_witness :
    (idx_get (poke demoState 0x4000 0x0F)).1 = (idx_get demoState).1 ∧
    (idx_get (poke demoState 0x4000 0x0F)).2.pc = (idx_get demoState).2.pc :=
  idx_get_ignores_scale demoState (poke demoState 0x4000 0x0F) rfl rfl rfl
    (by decide) (by decide)

/-! ## Narrow accesses -/

theorem and_FFFF (x : Nat) : x &&& 0xFFFF = x % 65536 :=
  Nat.and_pow_two_sub_one_eq_mod x 16

theorem poke_congr (s : State) (o : Int) {x y : Nat} (h : x % 256 = y % 256) :
    poke s o x = poke s o y := by
  unfold poke
  rw [h]

theorem beValue_lt (s : State) (off : Int) (n : Nat) : beValue s off n < 256 ^ n := by
  induction n with
  | zero => simp [beValue]
  | succ n ih =>
    have hp := peek_lt s (off + n)
    simp only [beValue, pow_succ]
    nlinarith

theorem mem_get_ret_cases (ENV_TOP : Nat) (s : State) (adr size x : Nat)
    (h : mem_get ENV_TOP s adr size = .ret x) :
    x = 0 ∨ x = mem_get_body s adr size := by
  unfold mem_get at h
  split at h
  · cases hg : mem_red_chk s adr with
    | fatal m => rw [hg] at h; cases h
    | ret b =>
      rw [hg] at h
      cases b
      · injection h with h; exact Or.inl h.symm
      · injection h with h; exact Or.inr h.symm
  · injection h with h; exact Or.inr h.symm

theorem mem_set_body_word_mask (s : State) (adr v : Nat) :
    mem_set_body s adr (v &&& 0xFFFF) S_WORD = mem_set_body s adr v S_WORD := by
  have hne : ¬ S_WORD = S_BYTE := by decide
  have h1 : (sar32 (v &&& 0xFFFF) 8 &&& 0xFF) % 256 = (sar32 v 8 &&& 0xFF) % 256 := by
    rw [and_FF, and_FF, Nat.mod_mod, Nat.mod_mod, sar32_8_byte, sar32_8_byte, and_FFFF]
    omega
  have h2 : (v &&& 0xFFFF &&& 0xFF) % 256 = (v &&& 0xFF) % 256 := by
    rw [and_FF, and_FF, and_FFFF]
    omega
  simp only [mem_set_body, hne, if_false, if_true]
  rw [poke_congr s _ h1, poke_congr _ _ h2]

theorem mem_set_body_byte_mask (s : State) (adr v : Nat) :
    mem_set_body s adr (v &&& 0xFF) S_BYTE = mem_set_body s adr v S_BYTE := by
  have h2 : (v &&& 0xFF &&& 0xFF) % 256 = (v &&& 0xFF) % 256 := by
    rw [and_FF, and_FF]
    omega
  simp only [mem_set_body, if_true]
  rw [poke_congr s _ h2]

/-- C17. Narrow round trip and zero extension: for every value `v` and every
trusted address `a`, `mem_set(a, v, S_WORD)` followed by `mem_get(a, S_WORD)`
returns `v & 0xFFFF`, and `mem_set(a, v, S_BYTE)` followed by `mem_get(a,
S_BYTE)` returns `v & 0xFF`; the state after the store is the one that storing
`v & 0xFFFF` (or `v & 0xFF`) gives, so the bits of `v` above the access width
do not reach memory; and at every address `b` a byte read that returns is in
`0 .. 255` and a word read that returns is in `0 .. 65535`. -/
theorem narrow_round_trip (ENV_TOP : Nat) (s : State) (a v : Nat)
    (hlo : (ENV_TOP : Int) ≤ sLong a) (hhi : a < s.mem_aloc) :
    (∃ t, mem_set ENV_TOP s a v S_WORD = .ret t ∧
      mem_get ENV_TOP t a S_WORD = .ret (v &&& 0xFFFF) ∧
      mem_set ENV_TOP s a (v &&& 0xFFFF) S_WORD = .ret t) ∧
    (∃ t, mem_set ENV_TOP s a v S_BYTE = .ret t ∧
      mem_get ENV_TOP t a S_BYTE = .ret (v &&& 0xFF) ∧
      mem_set ENV_TOP s a (v &&& 0xFF) S_BYTE = .ret t) ∧
    (∀ b x, mem_get ENV_TOP s b S_BYTE = .ret x → x ≤ 255) ∧
    (∀ b x, mem_get ENV_TOP s b S_WORD = .ret x → x ≤ 65535) := by
  have hal : ∀ size, (mem_set_body s a v size).mem_aloc = s.mem_aloc := fun size =>
    (mem_set_body_sameRegs s a v size).2.2.2.2.1
  have hwB : accessWidth S_BYTE = 1 := by decide
  have hwW : accessWidth S_WORD = 2 := by decide
  refine ⟨⟨_, mem_set_fast ENV_TOP s a v S_WORD hlo hhi, ?_, ?_⟩,
    ⟨_, mem_set_fast ENV_TOP s a v S_BYTE hlo hhi, ?_, ?_⟩, ?_, ?_⟩
  · rw [mem_get_fast ENV_TOP _ a S_WORD hlo (by rw [hal]; exact hhi), mem_get_body_eq,
      mem_set_body_value, hwW, and_FFFF]
    norm_num
  · rw [mem_set_fast ENV_TOP s a _ S_WORD hlo hhi, mem_set_body_word_mask]
  · rw [mem_get_fast ENV_TOP _ a S_BYTE hlo (by rw [hal]; exact hhi), mem_get_body_eq,
      mem_set_body_value, hwB, and_FF]
    norm_num
  · rw [mem_set_fast ENV_TOP s a _ S_BYTE hlo hhi, mem_set_body_byte_mask]
  · intro b x hx
    rcases mem_get_ret_cases ENV_TOP s b S_BYTE x hx with h | h
    · omega
    · have := beValue_lt s (sLong b) 1
      rw [h, mem_get_body_eq, hwB]
      omega
  · intro b x hx
    rcases mem_get_ret_cases ENV_TOP s b S_WORD x hx with h | h
    · omega
    · have := beValue_lt s (sLong b) 2
      rw [h, mem_get_body_eq, hwW]
      omega

/-- Instance of C17: storing `0xFFFF89AB` as a word and reading it back gives
`0x89AB`; storing it as a byte and reading it back gives `0xAB`. -/
theorem narrow_round_trip_witness :
    (∃ t, mem_set 0x2100 demoState 0x3000 0xFFFF89AB S_WORD = .ret t ∧
      mem_get 0x2100 t 0x3000 S_WORD = .ret 0x89AB) ∧
    (∃ t, mem_set 0x2100 demoState 0x3000 0xFFFF89AB S_BYTE = .ret t ∧
      mem_get 0x2100 t 0x3000 S_BYTE = .ret 0xAB) := by
  have h := narrow_round_trip 0x2100 demoState 0x3000 0xFFFF89AB (by decide) (by decide)
  obtain ⟨⟨t, h1, h2, _⟩, ⟨u, k1, k2, _⟩, _, _⟩ := h
  exact ⟨⟨t, h1, h2⟩, ⟨u, k1, k2⟩⟩

/-! ## Consistency of the widths -/

theorem shl32_16_or (x y : Nat) (hy : y < 65536) :
    shl32 x 16 ||| y = (x % 65536) * 65536 + y := by
  have h1 : shl32 x 16 = 2 ^ 16 * (x % 65536) := by
    unfold shl32; rw [Nat.shiftLeft_eq]; omega
  rw [h1, ← Nat.mul_add_lt_is_or (by simpa using hy)]
  omega

theorem mem_get_body_byte (s : State) (adr : Nat) :
    mem_get_body s adr S_BYTE = peek s (sLong adr) := by
  simp only [mem_get_body, if_true]

theorem mem_get_body_word (s : State) (adr : Nat) :
    mem_get_body s adr S_WORD = 256 * peek s (sLong adr) + peek s (sLong adr + 1) := by
  have h0 := peek_lt s (sLong adr)
  have h1 := peek_lt s (sLong adr + 1)
  have hne : ¬ S_WORD = S_BYTE := by decide
  simp only [mem_get_body, hne, if_false, if_true]
  rw [shl32_or_byte _ _ h1]
  omega

theorem mem_get_body_long (s : State) (adr size : Nat)
    (hb : size ≠ S_BYTE) (hw : size ≠ S_WORD) :
    mem_get_body s adr size =
      16777216 * peek s (sLong adr) + 65536 * peek s (sLong adr + 1)
        + 256 * peek s (sLong adr + 2) + peek s (sLong adr + 3) := by
  have h0 := peek_lt s (sLong adr)
  have h1 := peek_lt s (sLong adr + 1)
  have h2 := peek_lt s (sLong adr + 2)
  have h3 := peek_lt s (sLong adr + 3)
  simp only [mem_get_body, hb, hw, if_false]
  rw [shl32_or_byte _ _ h1, shl32_or_byte _ _ h2, shl32_or_byte _ _ h3]
  omega

theorem sar32_16_then_8 (v : Nat) :
    (sar32 (sar32 v 16) 8 &&& 0xFF) % 256 = (sar32 v 24 &&& 0xFF) % 256 := by
  rw [and_FF, and_FF, Nat.mod_mod, Nat.mod_mod, sar32_8_byte, sar32_24_byte]
  unfold sar32 toLong sLong
  rw [Int.shiftRight_eq_div_pow]
  split <;> omega

/-- C18. Widths are consistent: for every trusted address `a` with
`a + 3 < mem_aloc` (`a .. a + 3` being non-negative `Long` values), the long
read at `a` is `(w0 << 16) | w2` for the word reads `w0` at `a` and `w2` at
`a + 2`, the word read at `a` is `(b0 << 8) | b1` for the byte reads `b0` at
`a` and `b1` at `a + 1`, and `mem_set(a, v, S_LONG)` gives the same state as
`mem_set(a, v >> 16, S_WORD)` followed by `mem_set(a + 2, v, S_WORD)`. -/
theorem width_consistency (ENV_TOP : Nat) (s : State) (a v : Nat)
    (h31 : a + 3 < 2147483648) (hlo : ENV_TOP ≤ a) (hhi : a + 3 < s.mem_aloc) :
    (∃ l w0 w2 b0 b1,
      mem_get ENV_TOP s a S_LONG = .ret l ∧ mem_get ENV_TOP s a S_WORD = .ret w0 ∧
      mem_get ENV_TOP s (a + 2) S_WORD = .ret w2 ∧
      mem_get ENV_TOP s a S_BYTE = .ret b0 ∧ mem_get ENV_TOP s (a + 1) S_BYTE = .ret b1 ∧
      l = shl32 w0 16 ||| w2 ∧ w0 = shl32 b0 8 ||| b1) ∧
    (∃ t1 t2, mem_set ENV_TOP s a (sar32 v 16) S_WORD = .ret t1 ∧
      mem_set ENV_TOP t1 (a + 2) v S_WORD = .ret t2 ∧
      mem_set ENV_TOP s a v S_LONG = .ret t2) := by
  have hs0 : sLong a = (a : Int) := sLong_of_lt (by omega)
  have hs1 : sLong (a + 1) = (a : Int) + 1 := by
    rw [sLong_of_lt (by omega)]; push_cast; rfl
  have hs2 : sLong (a + 2) = (a : Int) + 2 := by
    rw [sLong_of_lt (by omega)]; push_cast; rfl
  have hl0 : (ENV_TOP : Int) ≤ sLong a := by rw [hs0]; exact_mod_cast hlo
  have hl1 : (ENV_TOP : Int) ≤ sLong (a + 1) := by rw [hs1]; omega
  have hl2 : (ENV_TOP : Int) ≤ sLong (a + 2) := by rw [hs2]; omega
  have e3 : (a : Int) + 2 + 1 = (a : Int) + 3 := by ring
  have p0 := peek_lt s (a : Int)
  have p1 := peek_lt s ((a : Int) + 1)
  have p2 := peek_lt s ((a : Int) + 2)
  have p3 := peek_lt s ((a : Int) + 3)
  constructor
  · refine ⟨_, _, _, _, _, mem_get_fast ENV_TOP s a S_LONG hl0 (by omega),
      mem_get_fast ENV_TOP s a S_WORD hl0 (by omega),
      mem_get_fast ENV_TOP s (a + 2) S_WORD hl2 (by omega),
      mem_get_fast ENV_TOP s a S_BYTE hl0 (by omega),
      mem_get_fast ENV_TOP s (a + 1) S_BYTE hl1 (by omega), ?_, ?_⟩
    · rw [mem_get_body_long s a S_LONG (by decide) (by decide), mem_get_body_word,
        mem_get_body_word, hs0, hs2, e3, shl32_16_or _ _ (by omega)]
      omega
    · rw [mem_get_body_word, mem_get_body_byte, mem_get_body_byte, hs0, hs1,
        shl32_or_byte _ _ p1]
      omega
  · have hal : (mem_set_body s a (sar32 v 16) S_WORD).mem_aloc = s.mem_aloc :=
      (mem_set_body_sameRegs s a (sar32 v 16) S_WORD).2.2.2.2.1
    refine ⟨_, _, mem_set_fast ENV_TOP s a (sar32 v 16) S_WORD hl0 (by omega),
      mem_set_fast ENV_TOP _ (a + 2) v S_WORD hl2 (by rw [hal]; omega), ?_⟩
    rw [mem_set_fast ENV_TOP s a v S_LONG hl0 (by omega)]
    have hne : ¬ S_WORD = S_BYTE := by decide
    have hl1' : ¬ S_LONG = S_BYTE := by decide
    have hl2' : ¬ S_LONG = S_WORD := by decide
    simp only [mem_set_body, hne, hl1', hl2', if_false, if_true, hs0, hs2, e3]
    rw [poke_congr s _ (sar32_16_then_8 v)]

/-- Instance of C18 at address `0x3000`, where the bytes are `12 34 56 78`. -/
theorem width_consistency_witness :
    mem_get 0x2100 demoState 0x3000 S_LONG = .ret (shl32 0x1234 16 ||| 0x5678) ∧
    ∃ t1 t2, mem_set 0x2100 demoState 0x3000 (sar32 0x89ABCDEF 16) S_WORD = .ret t1 ∧
      mem_set 0x2100 t1 0x3002 0x89ABCDEF S_WORD = .ret t2 ∧
      mem_set 0x2100 demoState 0x3000 0x89ABCDEF S_LONG = .ret t2 := by
  have h := width_consistency 0x2100 demoState 0x3000 0x89ABCDEF
    (by decide) (by decide) (by decide)
  exact ⟨by decide, h.2⟩

/-! ## Immediate fetch and the memory accessor -/

/-- C19. Immediate fetch agrees with the memory accessor on the trusted
range: in every state with `ENV_TOP <= pc` and `pc + 3 < mem_aloc` (`pc ..
pc + 3` being non-negative `Long` values, as the argument of `mem_get` is a
`Long`), `imi_get(S_WORD)` returns what `mem_get(pc, S_WORD)` returns,
`imi_get(S_LONG)` what `mem_get(pc, S_LONG)` returns and `imi_get(S_BYTE)`
what `mem_get(pc + 1, S_BYTE)` returns, `pc` being the value before the call;
and in every state and at every address a size code other than `S_BYTE` and
`S_WORD` is treated as `S_LONG` by `imi_get`, `mem_get` and `mem_set`. -/
theorem imi_get_agrees_with_mem_get (ENV_TOP : Nat) (s : State)
    (h31 : s.pc + 3 < 2147483648) (hlo : ENV_TOP ≤ s.pc) (hhi : s.pc + 3 < s.mem_aloc) :
    mem_get ENV_TOP s s.pc S_WORD = .ret (imi_get s S_WORD).1 ∧
    mem_get ENV_TOP s s.pc S_LONG = .ret (imi_get s S_LONG).1 ∧
    mem_get ENV_TOP s (s.pc + 1) S_BYTE = .ret (imi_get s S_BYTE).1 ∧
    (∀ (t : State) (size a d : Nat), size ≠ S_BYTE → size ≠ S_WORD →
      imi_get t size = imi_get t S_LONG ∧
      mem_get ENV_TOP t a size = mem_get ENV_TOP t a S_LONG ∧
      mem_set ENV_TOP t a d size = mem_set ENV_TOP t a d S_LONG) := by
  have hs0 : sLong s.pc = (s.pc : Int) := sLong_of_lt (by omega)
  have hs1 : sLong (s.pc + 1) = (s.pc : Int) + 1 := by
    rw [sLong_of_lt (by omega)]; push_cast; rfl
  have hl0 : (ENV_TOP : Int) ≤ sLong s.pc := by rw [hs0]; exact_mod_cast hlo
  have hl1 : (ENV_TOP : Int) ≤ sLong (s.pc + 1) := by rw [hs1]; omega
  have hne : ¬ S_WORD = S_BYTE := by decide
  have hn1 : ¬ S_LONG = S_BYTE := by decide
  have hn2 : ¬ S_LONG = S_WORD := by decide
  refine ⟨?_, ?_, ?_, ?_⟩
  · rw [mem_get_fast ENV_TOP s s.pc S_WORD hl0 (by omega)]
    simp only [mem_get_body, imi_get, hne, if_false, if_true, hs0]
  · rw [mem_get_fast ENV_TOP s s.pc S_LONG hl0 (by omega)]
    simp only [mem_get_body, imi_get, hn1, hn2, if_false, hs0]
  · rw [mem_get_fast ENV_TOP s (s.pc + 1) S_BYTE hl1 (by omega)]
    simp only [mem_get_body, imi_get, if_true, hs1]
  · intro t size a d hb hw
    refine ⟨?_, ?_, ?_⟩
    · simp only [imi_get, hb, hw, hn1, hn2, if_false]
    · simp only [mem_get, mem_get_body, hb, hw, hn1, hn2, if_false]
    · simp only [mem_set, mem_set_body, hb, hw, hn1, hn2, if_false]

/-- Instance of C19: at `pc = 0x3000` with the bytes `01 02 03 04`, and the
size code 7 read as `S_LONG`. -/
theorem imi_get_agrees_with_mem_get_witness :
    mem_get 0x2100 immState 0x3000 S_WORD = .ret 0x0102 ∧
    mem_get 0x2100 immState 0x3000 S_LONG = .ret 0x01020304 ∧
    mem_get 0x2100 immState 0x3001 S_BYTE = .ret 0x02 ∧
    imi_get immState 7 = imi_get immState S_LONG := by
  have h := imi_get_agrees_with_mem_get 0x2100 immState (by decide) (by decide) (by decide)
  exact ⟨h.1.trans (by decide), h.2.1.trans (by decide), h.2.2.1.trans (by decide),
    (h.2.2.2 immState 7 0 0 (by decide) (by decide)).1⟩

end Run68
